import Mathlib

/-!
Verification of the tabular data-cleaning pipeline in src/cleaning.py.

The source operates on pandas DataFrames.  We embed tables shallowly:
a table is an ordered list of named columns; a column carries a dtype
(numeric, object, datetime — mirroring pandas float/int dtypes, object
dtype, and datetime64) and a list of cells.  A cell is a rational number
(machine floats are embedded as rationals; no claim here depends on
rounding), a string, a timestamp (epoch value), or the missing sentinel
`na` (NaN/None/NaT).

Library semantics of pandas used by the source are embedded as follows,
each noted at its definition site:
- `Series.astype(str)` renders NaN as the string "nan" (`pyStr`);
- `pd.to_numeric(..., errors='coerce' / 'ignore')` parses decimal
  literals (optional sign, digits, optional fraction part); the model
  parser `parseNumList` covers that fragment (no exponents);
- `pd.to_numeric` on a datetime64 column reinterprets it as int64
  epoch values (`values.view('i8')`), with NaT becoming the int64
  sentinel;
- `pd.to_datetime(..., errors='ignore')` is all-or-nothing per column;
  the model date grammar is ISO `yyyy-mm-dd` (`parseDateList`) — no
  claim depends on which particular strings are date-parseable;
- comparing a string cell against a number (`df[col] > cap`) raises
  `TypeError`; the capping stage is therefore embedded in `Except`;
- `fillna` is modelled as actually filling every missing cell of the
  column it is applied to.
-/

namespace Cleaning

/-- A cell value of a table: numeric, text, temporal, or missing. -/
inductive Val where
  | num (q : ℚ)
  | str (s : String)
  | dt (n : ℤ)
  | na
  deriving DecidableEq

/-- The dtype of a pandas column: numeric (int/float), object, datetime64. -/
inductive Dtype where
  | numeric
  | object
  | datetime
  deriving DecidableEq

/-- A column: its pandas dtype and its cells. -/
structure Col where
  dtype : Dtype
  cells : List Val
  deriving DecidableEq

/-- A table (DataFrame): an ordered list of named columns. -/
abbrev Table := List (String × Col)

/-- Number of columns of a table. -/
def nCols (t : Table) : ℕ := t.length

/-- Number of rows of a table (length of its first column; 0 if no columns). -/
def nRows (t : Table) : ℕ :=
  match t with
  | [] => 0
  | c :: _ => c.2.cells.length

/-- Cell `i` of a column (missing when out of range). -/
def cellAt (c : Col) (i : ℕ) : Val := c.cells.getD i Val.na

/-- Row `i` of a table, as the list of its cells across columns. -/
def rowAt (t : Table) (i : ℕ) : List Val := t.map (fun nc => cellAt nc.2 i)

/-- ASCII whitespace recognised by Python `str.strip()` (model restricted to ASCII). -/
def isWS (c : Char) : Bool :=
  c = ' ' || c = '\t' || c = '\n' || c = '\r' || c = '\x0b' || c = '\x0c'

/-- Python `str.lower()` on one character (model restricted to ASCII letters;
a non-ASCII uppercase letter lowercases to a character that is equally outside
`[a-z0-9]`, so the classification into kept/replaced characters is unaffected). -/
def lowChar : Char → Char
  | 'A' => 'a' | 'B' => 'b' | 'C' => 'c' | 'D' => 'd' | 'E' => 'e' | 'F' => 'f'
  | 'G' => 'g' | 'H' => 'h' | 'I' => 'i' | 'J' => 'j' | 'K' => 'k' | 'L' => 'l'
  | 'M' => 'm' | 'N' => 'n' | 'O' => 'o' | 'P' => 'p' | 'Q' => 'q' | 'R' => 'r'
  | 'S' => 's' | 'T' => 't' | 'U' => 'u' | 'V' => 'v' | 'W' => 'w' | 'X' => 'x'
  | 'Y' => 'y' | 'Z' => 'z'
  | c => c

/-- A character of the class `[a-z0-9]` of the column-name regex. -/
def isAlnum (c : Char) : Bool :=
  ('a' ≤ c && c ≤ 'z') || ('0' ≤ c && c ≤ '9')

/-- An ASCII decimal digit. -/
def isDigit (c : Char) : Bool := '0' ≤ c && c ≤ '9'

/-- Python `str.strip()` on a character list. -/
def pyTrim (l : List Char) : List Char :=
  ((l.dropWhile isWS).reverse.dropWhile isWS).reverse

/-- Python `str.strip()` on a string. -/
def pyTrimS (s : String) : String := String.mk (pyTrim s.data)

/-- Python `str.lower()` on a string. -/
def pyLowerS (s : String) : String := String.mk (s.data.map lowChar)

/-- One character of the column-name normalisation: lowercase, keep `[a-z0-9]`,
replace anything else by an underscore (the source's
`str.replace(r'[^a-z0-9]+', '_')` followed by `str.replace(r'_+', '_')`
is per-character replacement followed by collapsing underscore runs). -/
def normChar (c : Char) : Char :=
  if isAlnum (lowChar c) then lowChar c else '_'

/-- Collapse runs of underscores to a single underscore. -/
def squeezeU : List Char → List Char
  | [] => []
  | [c] => [c]
  | a :: b :: rest =>
    if a = '_' && b = '_' then squeezeU (b :: rest) else a :: squeezeU (b :: rest)

/-- Strip leading and trailing underscores (the source's `str.strip('_')`). -/
def stripUnd (l : List Char) : List Char :=
  ((l.dropWhile (fun c => c = '_')).reverse.dropWhile (fun c => c = '_')).reverse

/-- Column-name normalisation of `clean_column_names` (src/cleaning.py:15-24):
strip, lowercase, replace runs of characters outside `[a-z0-9]` with `_`,
collapse repeated `_`, strip boundary `_`. -/
def normName (s : String) : String :=
  String.mk (stripUnd (squeezeU ((pyTrim s.data).map normChar)))

/-- The decimal digit character for `n < 10` (a placeholder otherwise). -/
def digitChar : ℕ → Char
  | 0 => '0' | 1 => '1' | 2 => '2' | 3 => '3' | 4 => '4'
  | 5 => '5' | 6 => '6' | 7 => '7' | 8 => '8' | 9 => '9'
  | _ => '?'

/-- The numeric value of a decimal digit character (0 on non-digits). -/
def digitVal : Char → ℕ
  | '0' => 0 | '1' => 1 | '2' => 2 | '3' => 3 | '4' => 4
  | '5' => 5 | '6' => 6 | '7' => 7 | '8' => 8 | '9' => 9
  | _ => 0

/-- Decimal digits of a natural number, most significant first. -/
def natDigs (n : ℕ) : List Char :=
  if _h : n < 10 then [digitChar n]
  else natDigs (n / 10) ++ [digitChar (n % 10)]
  termination_by n
  decreasing_by exact Nat.div_lt_self (by omega) (by omega)

/-- The value of a list of decimal digit characters, most significant first. -/
def digitsVal (l : List Char) : ℕ :=
  l.foldl (fun acc c => 10 * acc + digitVal c) 0

/-- Exactly `k` decimal digits of `r` (mod `10^k`), zero-padded, most significant first. -/
def padDigs : ℕ → ℕ → List Char
  | 0, _ => []
  | k + 1, r => padDigs k (r / 10) ++ [digitChar (r % 10)]

/-- The numeric-literal fragment accepted by the model of `pd.to_numeric` and
Python float parsing: optional sign, integer digits, optional `.` and fraction
digits, at least one digit in total.  (Real pandas additionally accepts
exponents and the spellings of NaN/inf; no claim depends on those, and a cell
holding such a string is simply one the model does not treat as numeric.) -/
def parseNumList (l : List Char) : Option ℚ :=
  let sgn : ℚ := match l with
    | '-' :: _ => -1
    | _ => 1
  let l' : List Char := match l with
    | '-' :: r => r
    | '+' :: r => r
    | r => r
  let ip := l'.takeWhile isDigit
  let rest := l'.dropWhile isDigit
  match rest with
  | [] => if ip.isEmpty then none else some (sgn * (digitsVal ip : ℚ))
  | '.' :: fp =>
    if fp.all isDigit && !(ip.isEmpty && fp.isEmpty) then
      some (sgn * ((digitsVal ip : ℚ) + (digitsVal fp : ℚ) / 10 ^ fp.length))
    else none
  | _ => none

/-- String form of a number (model of Python `str(float)` / `str(int)`):
the shortest decimal form when the rational has a finite decimal expansion
(every value a pandas float column can hold does), an unparseable placeholder
otherwise. -/
def decExp (q : ℚ) : Option ℕ :=
  (List.range (q.den + 1)).find? (fun k => decide (q.den ∣ 10 ^ k))

/-- The digit part of `numToStr`: the decimal digits of `|q| * 10^k`, with a
decimal point inserted `k` places from the right when `k > 0`. -/
def numToStrDigits (q : ℚ) (k : ℕ) : List Char :=
  if k = 0 then natDigs ((q.num * ((10 ^ k / q.den : ℕ) : ℤ)).natAbs)
  else natDigs ((q.num * ((10 ^ k / q.den : ℕ) : ℤ)).natAbs / 10 ^ k) ++
    '.' :: padDigs k ((q.num * ((10 ^ k / q.den : ℕ) : ℤ)).natAbs % 10 ^ k)

/-- The character list of `numToStr` for a given decimal exponent: a minus
sign for negative numbers, then the digits. -/
def numToStrCore (q : ℚ) (k : ℕ) : List Char :=
  if q.num < 0 then '-' :: numToStrDigits q k else numToStrDigits q k

/-- See `decExp`: render a rational number the way Python renders the float
(decimal digits, possibly a fraction part and a sign; the exact digit string
is a modelling choice — claims depend only on it parsing back to the same
value). -/
def numToStr (q : ℚ) : String :=
  match decExp q with
  | some k => String.mk (numToStrCore q k)
  | none => "?"

/-- Python `str(x)` as pandas `Series.astype(str)` applies it to a cell:
NaN renders as the string "nan"; a timestamp renders as an opaque non-numeric
form (modelled with a `ts` prefix followed by the epoch value). -/
def pyStr (v : Val) : String :=
  match v with
  | Val.num q => numToStr q
  | Val.str s => s
  | Val.dt n => String.mk ('t' :: 's' :: (if n < 0 then '-' :: natDigs n.natAbs else natDigs n.natAbs))
  | Val.na => "nan"

/-- The model date grammar for `pd.to_datetime`: ISO `yyyy-mm-dd`
(4 digits, dash, 2 digits in 01-12, dash, 2 digits in 01-31), encoded as
`y*10000 + m*100 + d`.  Best-effort placeholder for the pandas date parser;
no claim depends on which strings are date-like. -/
def parseDateList (l : List Char) : Option ℤ :=
  match l with
  | [y1, y2, y3, y4, '-', m1, m2, '-', d1, d2] =>
    if [y1, y2, y3, y4, m1, m2, d1, d2].all isDigit then
      let y := digitsVal [y1, y2, y3, y4]
      let m := digitsVal [m1, m2]
      let d := digitsVal [d1, d2]
      if 1 ≤ m && m ≤ 12 && 1 ≤ d && d ≤ 31 then some (y * 10000 + m * 100 + d) else none
    else none
  | _ => none

/-- The int64 value that `datetime64.view('i8')` gives a NaT (the int64 minimum). -/
def iNaT : ℤ := -(2 ^ 63)

/-- `clean_column_names` (src/cleaning.py:15-24): normalise every column name. -/
def clean_column_names (t : Table) : Table :=
  t.map (fun nc => (normName nc.1, nc.2))

/-- `rename_columns` (src/cleaning.py:26-29): rename the column `st` to `state`. -/
def rename_columns (t : Table) : Table :=
  t.map (fun nc => (if nc.1 = "st" then "state" else nc.1, nc.2))

/-- Select the cells of a column at the given row indices. -/
def filterRowsIdx (t : Table) (keep : List ℕ) : Table :=
  t.map (fun nc => (nc.1, Col.mk nc.2.dtype (keep.map (fun i => cellAt nc.2 i))))

/-- `remove_empty_rows_columns` (src/cleaning.py:31-33):
`df.dropna(axis=0, how='all').dropna(axis=1, how='all')` — drop rows whose
cells are all missing, then drop columns whose surviving cells are all missing. -/
def remove_empty_rows_columns (t : Table) : Table :=
  let keep := (List.range (nRows t)).filter (fun i => (rowAt t i).any (fun v => !decide (v = Val.na)))
  (filterRowsIdx t keep).filter (fun nc => !(nc.2.cells.all (fun v => decide (v = Val.na))))

/-- `remove_duplicates` (src/cleaning.py:35-37): `df.drop_duplicates()` — drop
every row equal, cell for cell, to an earlier row (pandas treats NaN as equal
to NaN here), keeping the first occurrence. -/
def remove_duplicates (t : Table) : Table :=
  filterRowsIdx t ((List.range (nRows t)).filter
    (fun i => !((List.range i).any (fun j => decide (rowAt t j = rowAt t i)))))

/-- `strip_text_columns` (src/cleaning.py:39-43): on every object-dtype column,
`df[col].astype(str).str.strip().str.lower()` — every cell (including NaN,
which `astype(str)` renders as the string "nan") becomes its stripped,
lowercased string form. -/
def strip_text_columns (t : Table) : Table :=
  t.map (fun nc =>
    if nc.2.dtype = Dtype.object then
      (nc.1, Col.mk Dtype.object (nc.2.cells.map (fun v => Val.str (pyLowerS (pyTrimS (pyStr v))))))
    else nc)

/-- First-match lookup in a literal replacement table. -/
def lookupMap : List (String × String) → String → Option String
  | [], _ => none
  | (k, v) :: rest, s => if s = k then some v else lookupMap rest s

/-- `Series.replace(dict)`: a string cell equal to a key is replaced by the
mapped value; every other cell passes through unchanged. -/
def applyMap (m : List (String × String)) : Val → Val
  | Val.str s =>
    match lookupMap m s with
    | some v => Val.str v
    | none => Val.str s
  | v => v

/-- Transform the cells of every column with the given name, leaving all other
columns untouched (so it is the identity when the name is absent). -/
def mapColumn (name : String) (f : Val → Val) (t : Table) : Table :=
  t.map (fun nc => if nc.1 = name then (nc.1, Col.mk nc.2.dtype (nc.2.cells.map f)) else nc)

/-- The replacement table of `clean_gender` (src/cleaning.py:45-58). -/
def genderMap : List (String × String) :=
  [("male", "m"), ("m", "m"), ("female", "f"), ("f", "f"), ("femal", "f")]

/-- `clean_gender` (src/cleaning.py:45-58). -/
def clean_gender (t : Table) : Table := mapColumn "gender" (applyMap genderMap) t

/-- The replacement table of `clean_education` (src/cleaning.py:60-72). -/
def educationMap : List (String × String) :=
  [("master", "master"), ("bachelor", "bachelor"), ("bachelors", "bachelor"),
   ("high school or below", "high school"), ("college", "college"), ("doctor", "doctorate")]

/-- `clean_education` (src/cleaning.py:60-72). -/
def clean_education (t : Table) : Table := mapColumn "education" (applyMap educationMap) t

/-- The replacement table of `clean_state_names` (src/cleaning.py:74-82). -/
def stateMap : List (String × String) :=
  [("az", "arizona"), ("wa", "washington"), ("cali", "california")]

/-- `clean_state_names` (src/cleaning.py:74-82). -/
def clean_state_names (t : Table) : Table := mapColumn "state" (applyMap stateMap) t

/-- The replacement table of `clean_policy_type` (src/cleaning.py:94-102). -/
def policyMap : List (String × String) :=
  [("personal auto", "personal"), ("corporate auto", "corporate"), ("special auto", "special")]

/-- `clean_policy_type` (src/cleaning.py:94-102). -/
def clean_policy_type (t : Table) : Table := mapColumn "policy_type" (applyMap policyMap) t

/-- One cell of `cap_monthly_premium_auto` (src/cleaning.py:84-92):
`np.where(df[col] > cap, cap, df[col])` with `cap = 1000`.  Comparing NaN with
the cap gives False, so a missing cell stays missing; comparing a string or a
timestamp with the number raises `TypeError`, embedded as the error case. -/
def capCell (v : Val) : Except Unit Val :=
  match v with
  | Val.num q => Except.ok (if 1000 < q then Val.num 1000 else Val.num q)
  | Val.na => Except.ok Val.na
  | _ => Except.error ()

/-- One column of `cap_monthly_premium_auto`: only the column named
`monthly_premium_auto` is touched. -/
def capEntry (nc : String × Col) : Except Unit (String × Col) :=
  if nc.1 = "monthly_premium_auto" then
    (nc.2.cells.mapM capCell).map (fun cs => (nc.1, Col.mk nc.2.dtype cs))
  else Except.ok nc

/-- `cap_monthly_premium_auto` (src/cleaning.py:84-92): cap the
`monthly_premium_auto` column at 1000; a no-op when the column is absent. -/
def cap_monthly_premium_auto (t : Table) : Except Unit Table :=
  t.mapM capEntry

/-- One cell of `clean_customer_lifetime_value` (src/cleaning.py:104-114):
`astype(str)`, remove every `%`, strip, then `pd.to_numeric(errors='coerce')`
(a parse failure becomes NaN; the "nan" rendering of a missing cell equally
ends up missing). -/
def clvCell (v : Val) : Val :=
  match parseNumList (pyTrim ((pyStr v).data.filter (fun c => !decide (c = '%')))) with
  | some q => Val.num q
  | none => Val.na

/-- `clean_customer_lifetime_value` (src/cleaning.py:104-114): rewrite the
`customer_lifetime_value` column through `clvCell`; `to_numeric(errors='coerce')`
leaves the column with a numeric dtype.  A no-op when the column is absent. -/
def clean_customer_lifetime_value (t : Table) : Table :=
  t.map (fun nc =>
    if nc.1 = "customer_lifetime_value" then
      (nc.1, Col.mk Dtype.numeric (nc.2.cells.map clvCell))
    else nc)

/-- One object-column cell under `pd.to_numeric(errors='ignore')`: numbers and
NaN pass through, strings must parse as numeric literals, anything else makes
the whole column conversion fail. -/
def toNumericCell : Val → Option Val
  | Val.num q => some (Val.num q)
  | Val.na => some Val.na
  | Val.str s => (parseNumList s.data).map Val.num
  | Val.dt _ => none

/-- `pd.to_numeric(col, errors='ignore')` (src/cleaning.py:119): a numeric
column is unchanged; a datetime64 column is reinterpreted as its int64 epoch
values (`values.view('i8')`, NaT becoming the int64 sentinel); an object
column converts only if every cell parses, else it is left unchanged. -/
def toNumericCol (c : Col) : Col :=
  match c.dtype with
  | Dtype.numeric => c
  | Dtype.datetime =>
    Col.mk Dtype.numeric (c.cells.map (fun v =>
      match v with
      | Val.dt n => Val.num (n : ℚ)
      | Val.na => Val.num (iNaT : ℚ)
      | x => x))
  | Dtype.object =>
    match c.cells.mapM toNumericCell with
    | some cs => Col.mk Dtype.numeric cs
    | none => c

/-- One object-column cell under `pd.to_datetime(errors='ignore')`: NaN passes
(as NaT), strings must parse as dates, anything else fails the column. -/
def toDatetimeCell : Val → Option Val
  | Val.na => some Val.na
  | Val.str s => (parseDateList s.data).map Val.dt
  | _ => none

/-- `pd.to_datetime(col, errors='ignore')` on a still-object column
(src/cleaning.py:120-124): all-or-nothing conversion. -/
def toDatetimeCol (c : Col) : Col :=
  match c.cells.mapM toDatetimeCell with
  | some cs => Col.mk Dtype.datetime cs
  | none => c

/-- `convert_data_types` (src/cleaning.py:116-125): per column, try numeric
conversion; where the column is still object-dtyped, try datetime conversion. -/
def convert_data_types (t : Table) : Table :=
  t.map (fun nc =>
    let c := toNumericCol nc.2
    (nc.1, if c.dtype = Dtype.object then toDatetimeCol c else c))

/-- `handle_missing_values` (src/cleaning.py:127-134): fill every missing cell
with 0 in numeric-dtype columns and with the string "unknown" elsewhere. -/
def handle_missing_values (t : Table) : Table :=
  t.map (fun nc =>
    (nc.1, Col.mk nc.2.dtype (nc.2.cells.map (fun v =>
      if v = Val.na then
        (if nc.2.dtype = Dtype.numeric then Val.num 0 else Val.str "unknown")
      else v))))

/-- `clean_data` (src/cleaning.py:136-151): the full pipeline, in the source's
order.  The only stage that can raise is the premium cap (a `TypeError` when
the `monthly_premium_auto` column holds strings or timestamps), so the result
is an `Except`. -/
def clean_data (df : Table) : Except Unit Table := do
  let df := clean_column_names df
  let df := rename_columns df
  let df := remove_empty_rows_columns df
  let df := remove_duplicates df
  let df := strip_text_columns df
  let df := clean_gender df
  let df := clean_education df
  let df := clean_state_names df
  let df ← cap_monthly_premium_auto df
  let df := clean_policy_type df
  let df := clean_customer_lifetime_value df
  let df := convert_data_types df
  let df := handle_missing_values df
  pure df

/-- The stage order written in the spec (§4.8): 4.1 → 4.2 → 4.3 → 4.4 (gender,
education, state, policy type) → 4.5 (premium cap, then lifetime value) → 4.6
→ 4.7.  This definition follows the spec's words — the source applies the
premium cap before the policy-type mapping instead — and is compared with
`clean_data` in the refinement claim. -/
def clean_data_specOrder (df : Table) : Except Unit Table := do
  let df := clean_column_names df
  let df := rename_columns df
  let df := remove_empty_rows_columns df
  let df := remove_duplicates df
  let df := strip_text_columns df
  let df := clean_gender df
  let df := clean_education df
  let df := clean_state_names df
  let df := clean_policy_type df
  let df ← cap_monthly_premium_auto df
  let df := clean_customer_lifetime_value df
  let df := convert_data_types df
  let df := handle_missing_values df
  pure df

/-- `u` differs from `t` in at most the column named `target`: the list of
column names (set and order) is unchanged, every other column is identical,
and even the target column keeps its cell count (so the row count is
unchanged). -/
def FramedOn (target : String) (t u : Table) : Prop :=
  u.map Prod.fst = t.map Prod.fst ∧
  ∀ p ∈ t.zip u,
    (¬ p.1.1 = target → p.2.2 = p.1.2) ∧ (p.2.2).cells.length = (p.1.2).cells.length

/-- No two adjacent underscores anywhere in the list. -/
def noAdjU : List Char → Bool
  | a :: b :: rest => !(a = '_' && b = '_') && noAdjU (b :: rest)
  | _ => true

/-- The acceptor of the column-name pattern `[a-z0-9]+(_[a-z0-9]+)*`, as a
two-state machine: `expectAl` is true at the start and right after an
underscore, where only an alphanumeric character may come next. -/
def slugRun (expectAl : Bool) : List Char → Bool
  | [] => !expectAl
  | c :: cs =>
    if isAlnum c then slugRun false cs
    else decide (c = '_') && !expectAl && slugRun true cs

/-- A string matches `[a-z0-9]+(_[a-z0-9]+)*`. -/
def matchesSlug (l : List Char) : Bool := slugRun true l


/-- The rows of a table, in order (used to state row-level uniqueness). -/
def rowsOf (t : Table) : List (List Val) := (List.range (nRows t)).map (rowAt t)

/-- No two rows of the table are cell-for-cell equal. -/
def rowsNodup (t : Table) : Prop := (rowsOf t).Nodup

/-- No column of the table carries the datetime dtype. -/
def noTemporalCol (t : Table) : Prop := ∀ nc ∈ t, ¬ (nc.2).dtype = Dtype.datetime


/-- Every column name is a fixed point of the name normalisation and is not `st`. -/
def namesGood (t : Table) : Prop :=
  ∀ nc ∈ t, normName nc.1 = nc.1 ∧ ¬ nc.1 = "st"

/-- Every column holds exactly `nRows t` cells. -/
def colsUniform (t : Table) : Prop :=
  ∀ nc ∈ t, (nc.2).cells.length = nRows t

/-- The table is empty or has at least one row. -/
def posRows (t : Table) : Prop := t = [] ∨ 0 < nRows t

/-- Every cell of an object-dtype column is a string fixed by strip-and-lowercase. -/
def objStrip (t : Table) : Prop :=
  ∀ nc ∈ t, (nc.2).dtype = Dtype.object → ∀ v ∈ (nc.2).cells,
    ∃ e, v = Val.str e ∧ pyLowerS (pyTrimS e) = e

/-- Every cell of every column named `name` satisfies `P`. -/
def colCellsP (name : String) (P : Val → Prop) (t : Table) : Prop :=
  ∀ nc ∈ t, nc.1 = name → ∀ v ∈ (nc.2).cells, P v

/-- Every column named `name` has the numeric dtype. -/
def colNumeric (name : String) (t : Table) : Prop :=
  ∀ nc ∈ t, nc.1 = name → (nc.2).dtype = Dtype.numeric

/-! ### Shape lemmas -/

theorem mapM_except_length {α β : Type} (f : α → Except Unit β) :
    ∀ (l : List α) (l' : List β), l.mapM f = Except.ok l' → l'.length = l.length := by
  intro l
  induction l with
  | nil => intro l' h; rw [List.mapM_nil] at h; cases h; rfl
  | cons a l ih =>
    intro l' h
    rw [List.mapM_cons] at h
    cases hfa : f a with
    | error e => rw [hfa] at h; cases h
    | ok b =>
      rw [hfa] at h
      cases hrest : List.mapM f l with
      | error e => rw [hrest] at h; cases h
      | ok bs =>
        rw [hrest] at h
        cases h
        simp [ih bs hrest]

theorem mapM_option_length {α β : Type} (f : α → Option β) :
    ∀ (l : List α) (l' : List β), l.mapM f = some l' → l'.length = l.length := by
  intro l
  induction l with
  | nil => intro l' h; rw [List.mapM_nil] at h; cases h; rfl
  | cons a l ih =>
    intro l' h
    rw [List.mapM_cons] at h
    cases hfa : f a with
    | none => rw [hfa] at h; cases h
    | some b =>
      rw [hfa] at h
      cases hrest : List.mapM f l with
      | none => rw [hrest] at h; cases h
      | some bs =>
        rw [hrest] at h
        cases h
        simp [ih bs hrest]

theorem nCols_map (g : String × Col → String × Col) (t : Table) :
    nCols (t.map g) = nCols t := by
  simp [nCols]

theorem nRows_map (g : String × Col → String × Col)
    (h : ∀ nc, ((g nc).2).cells.length = (nc.2).cells.length) (t : Table) :
    nRows (t.map g) = nRows t := by
  cases t with
  | nil => rfl
  | cons c rest => simpa [nRows] using h c

theorem nCols_filterRowsIdx (t : Table) (keep : List ℕ) :
    nCols (filterRowsIdx t keep) = nCols t := by
  simp [filterRowsIdx, nCols]

theorem cells_filterRowsIdx_mem (t : Table) (keep : List ℕ) :
    ∀ nc ∈ filterRowsIdx t keep, (nc.2).cells.length = keep.length := by
  intro nc hnc
  simp only [filterRowsIdx, List.mem_map] at hnc
  obtain ⟨x, _, rfl⟩ := hnc
  simp

theorem nRows_le_of_cells_bound (t : Table) (n : ℕ)
    (h : ∀ nc ∈ t, (nc.2).cells.length ≤ n) : nRows t ≤ n := by
  cases t with
  | nil => exact Nat.zero_le n
  | cons c rest => exact h c (List.mem_cons_self c rest)

theorem nRows_remove_empty_le (t : Table) :
    nRows (remove_empty_rows_columns t) ≤ nRows t := by
  apply nRows_le_of_cells_bound
  intro nc hnc
  have h1 : nc ∈ filterRowsIdx t ((List.range (nRows t)).filter
      (fun i => (rowAt t i).any (fun v => !decide (v = Val.na)))) := by
    simpa [remove_empty_rows_columns] using List.mem_of_mem_filter hnc
  have h2 := cells_filterRowsIdx_mem _ _ _ h1
  rw [h2]
  calc ((List.range (nRows t)).filter _).length ≤ (List.range (nRows t)).length :=
        List.length_filter_le _ _
    _ = nRows t := List.length_range (nRows t)

theorem nCols_remove_empty_le (t : Table) :
    nCols (remove_empty_rows_columns t) ≤ nCols t := by
  unfold remove_empty_rows_columns
  calc nCols (List.filter _ (filterRowsIdx t _)) ≤ nCols (filterRowsIdx t _) :=
        List.length_filter_le _ _
    _ = nCols t := nCols_filterRowsIdx _ _

theorem nRows_remove_duplicates_le (t : Table) :
    nRows (remove_duplicates t) ≤ nRows t := by
  apply nRows_le_of_cells_bound
  intro nc hnc
  have h2 := cells_filterRowsIdx_mem _ _ _ hnc
  rw [h2]
  calc ((List.range (nRows t)).filter _).length ≤ (List.range (nRows t)).length :=
        List.length_filter_le _ _
    _ = nRows t := List.length_range (nRows t)

theorem nCols_remove_duplicates (t : Table) :
    nCols (remove_duplicates t) = nCols t :=
  nCols_filterRowsIdx _ _

theorem nRows_mapColumn (name : String) (f : Val → Val) (t : Table) :
    nRows (mapColumn name f t) = nRows t := by
  apply nRows_map
  intro nc
  by_cases h : nc.1 = name <;> simp [h]

theorem nCols_mapColumn (name : String) (f : Val → Val) (t : Table) :
    nCols (mapColumn name f t) = nCols t :=
  nCols_map _ t

theorem nRows_strip (t : Table) : nRows (strip_text_columns t) = nRows t := by
  apply nRows_map
  intro nc
  by_cases h : nc.2.dtype = Dtype.object <;> simp [h]

theorem nCols_strip (t : Table) : nCols (strip_text_columns t) = nCols t :=
  nCols_map _ t

theorem length_toNumericCol (c : Col) : (toNumericCol c).cells.length = c.cells.length := by
  unfold toNumericCol
  cases c with
  | mk d cs =>
    cases d with
    | numeric => rfl
    | datetime => simp
    | object =>
      cases h : cs.mapM toNumericCell with
      | none => rfl
      | some cs' => simpa using mapM_option_length _ cs cs' h

theorem length_toDatetimeCol (c : Col) : (toDatetimeCol c).cells.length = c.cells.length := by
  unfold toDatetimeCol
  cases h : c.cells.mapM toDatetimeCell with
  | none => rfl
  | some cs' => simpa using mapM_option_length _ c.cells cs' h

theorem nRows_convert (t : Table) : nRows (convert_data_types t) = nRows t := by
  apply nRows_map
  intro nc
  by_cases h : (toNumericCol nc.2).dtype = Dtype.object <;>
    simp [h, length_toDatetimeCol, length_toNumericCol]

theorem nCols_convert (t : Table) : nCols (convert_data_types t) = nCols t :=
  nCols_map _ t

theorem nRows_missing (t : Table) : nRows (handle_missing_values t) = nRows t := by
  apply nRows_map
  intro nc
  simp

theorem nCols_missing (t : Table) : nCols (handle_missing_values t) = nCols t :=
  nCols_map _ t

theorem nRows_clv (t : Table) : nRows (clean_customer_lifetime_value t) = nRows t := by
  apply nRows_map
  intro nc
  by_cases h : nc.1 = "customer_lifetime_value" <;> simp [h]

theorem nCols_clv (t : Table) : nCols (clean_customer_lifetime_value t) = nCols t :=
  nCols_map _ t

theorem cap_ok_shape (t u : Table) (h : cap_monthly_premium_auto t = Except.ok u) :
    nCols u = nCols t ∧ nRows u = nRows t ∧
      (∀ p ∈ t.zip u, p.1.1 = p.2.1 ∧ (p.2.2).cells.length = (p.1.2).cells.length) := by
  induction t generalizing u with
  | nil =>
    rw [cap_monthly_premium_auto, List.mapM_nil] at h
    cases h
    exact ⟨rfl, rfl, by simp⟩
  | cons a l ih =>
    rw [cap_monthly_premium_auto, List.mapM_cons] at h
    by_cases ha : a.1 = "monthly_premium_auto"
    · rw [capEntry, if_pos ha] at h
      cases hcs : a.2.cells.mapM capCell with
      | error e => rw [hcs] at h; cases h
      | ok cs =>
        rw [hcs] at h
        cases hrest : l.mapM capEntry with
        | error e => rw [hrest] at h; cases h
        | ok us =>
          rw [hrest] at h
          cases h
          have hlen := mapM_except_length _ _ _ hcs
          obtain ⟨h1, h2, h3⟩ := ih us hrest
          refine ⟨by simpa [nCols] using h1, by simpa [nRows] using hlen, ?_⟩
          intro p hp
          rcases List.mem_cons.mp hp with hp | hp
          · cases hp; exact ⟨rfl, hlen⟩
          · exact h3 p hp
    · rw [capEntry, if_neg ha] at h
      cases hrest : l.mapM capEntry with
      | error e => rw [hrest] at h; cases h
      | ok us =>
        rw [hrest] at h
        cases h
        obtain ⟨h1, h2, h3⟩ := ih us hrest
        refine ⟨by simpa [nCols] using h1, by simp [nRows], ?_⟩
        intro p hp
        rcases List.mem_cons.mp hp with hp | hp
        · cases hp; exact ⟨rfl, rfl⟩
        · exact h3 p hp

/-! ### Claim C7: no stage grows the table -/

/-- C7: for every table and every stage of the pipeline, the output row count
is at most the input row count and the output column count is at most the
input column count; the only stages that may decrease the row count are
empty-row removal and deduplication (all others preserve it exactly), and the
only stage that may decrease the column count is empty-column removal (all
others preserve it exactly).  The capping stage preserves both counts whenever
it succeeds. -/
theorem claim_C7_shape (t : Table) :
    (nRows (clean_column_names t) = nRows t ∧ nCols (clean_column_names t) = nCols t) ∧
    (nRows (rename_columns t) = nRows t ∧ nCols (rename_columns t) = nCols t) ∧
    (nRows (remove_empty_rows_columns t) ≤ nRows t ∧
      nCols (remove_empty_rows_columns t) ≤ nCols t) ∧
    (nRows (remove_duplicates t) ≤ nRows t ∧ nCols (remove_duplicates t) = nCols t) ∧
    (nRows (strip_text_columns t) = nRows t ∧ nCols (strip_text_columns t) = nCols t) ∧
    (nRows (clean_gender t) = nRows t ∧ nCols (clean_gender t) = nCols t) ∧
    (nRows (clean_education t) = nRows t ∧ nCols (clean_education t) = nCols t) ∧
    (nRows (clean_state_names t) = nRows t ∧ nCols (clean_state_names t) = nCols t) ∧
    (nRows (clean_policy_type t) = nRows t ∧ nCols (clean_policy_type t) = nCols t) ∧
    (∀ u, cap_monthly_premium_auto t = Except.ok u → nRows u = nRows t ∧ nCols u = nCols t) ∧
    (nRows (clean_customer_lifetime_value t) = nRows t ∧
      nCols (clean_customer_lifetime_value t) = nCols t) ∧
    (nRows (convert_data_types t) = nRows t ∧ nCols (convert_data_types t) = nCols t) ∧
    (nRows (handle_missing_values t) = nRows t ∧ nCols (handle_missing_values t) = nCols t) :=
  ⟨⟨nRows_map (fun nc => (normName nc.1, nc.2)) (fun _ => rfl) t,
    nCols_map (fun nc => (normName nc.1, nc.2)) t⟩,
   ⟨nRows_map (fun nc => (if nc.1 = "st" then "state" else nc.1, nc.2)) (fun _ => rfl) t,
    nCols_map (fun nc => (if nc.1 = "st" then "state" else nc.1, nc.2)) t⟩,
   ⟨nRows_remove_empty_le t, nCols_remove_empty_le t⟩,
   ⟨nRows_remove_duplicates_le t, nCols_remove_duplicates t⟩,
   ⟨nRows_strip t, nCols_strip t⟩,
   ⟨nRows_mapColumn _ _ t, nCols_mapColumn _ _ t⟩,
   ⟨nRows_mapColumn _ _ t, nCols_mapColumn _ _ t⟩,
   ⟨nRows_mapColumn _ _ t, nCols_mapColumn _ _ t⟩,
   ⟨nRows_mapColumn _ _ t, nCols_mapColumn _ _ t⟩,
   fun u h => ⟨(cap_ok_shape t u h).2.1, (cap_ok_shape t u h).1⟩,
   ⟨nRows_clv t, nCols_clv t⟩,
   ⟨nRows_convert t, nCols_convert t⟩,
   ⟨nRows_missing t, nCols_missing t⟩⟩

/-- Witness for C7 at a concrete table, instantiating the capping stage's
success hypothesis. -/
theorem claim_C7_shape_witness :
    nRows (remove_duplicates [("monthly_premium_auto", Col.mk Dtype.numeric [Val.num 1500])]) ≤ 1 ∧
    (nRows [("monthly_premium_auto", Col.mk Dtype.numeric [Val.num 1000])] = 1 ∧
      nCols [("monthly_premium_auto", Col.mk Dtype.numeric [Val.num 1000])] = 1) := by
  refine ⟨?_, ?_⟩
  · exact (claim_C7_shape [("monthly_premium_auto", Col.mk Dtype.numeric [Val.num 1500])]).2.2.2.1.1
  · have h := (claim_C7_shape
      [("monthly_premium_auto", Col.mk Dtype.numeric [Val.num 1500])]).2.2.2.2.2.2.2.2.2.1
    exact h [("monthly_premium_auto", Col.mk Dtype.numeric [Val.num 1000])] (by rfl)

/-! ### Except helpers and the stage-order equivalence -/

@[simp] theorem except_bind_ok {α β : Type} (a : α) (f : α → Except Unit β) :
    (Except.ok a : Except Unit α) >>= f = f a := rfl

@[simp] theorem except_bind_error {α β : Type} (e : Unit) (f : α → Except Unit β) :
    (Except.error e : Except Unit α) >>= f = Except.error e := rfl

@[simp] theorem except_map_ok {α β : Type} (f : α → β) (a : α) :
    Except.map f (Except.ok a : Except Unit α) = Except.ok (f a) := rfl

@[simp] theorem except_map_error {α β : Type} (f : α → β) (e : Unit) :
    Except.map f (Except.error e : Except Unit α) = Except.error e := rfl

theorem capEntry_of_ne (nc : String × Col) (h : ¬ nc.1 = "monthly_premium_auto") :
    capEntry nc = Except.ok nc := by
  rw [capEntry, if_neg h]

theorem capEntry_fst (nc b : String × Col) (h : capEntry nc = Except.ok b) : b.1 = nc.1 := by
  rw [capEntry] at h
  by_cases hm : nc.1 = "monthly_premium_auto"
  · rw [if_pos hm] at h
    cases hcs : nc.2.cells.mapM capCell with
    | error e => rw [hcs] at h; cases h
    | ok cs => rw [hcs] at h; cases h; rfl
  · rw [if_neg hm] at h; cases h; rfl

theorem cap_mapColumn_comm (name : String) (hname : ¬ name = "monthly_premium_auto")
    (f : Val → Val) (t : Table) :
    cap_monthly_premium_auto (mapColumn name f t) =
      Except.map (mapColumn name f) (cap_monthly_premium_auto t) := by
  induction t with
  | nil => rfl
  | cons nc l ih =>
    rw [mapColumn, List.map_cons, cap_monthly_premium_auto, cap_monthly_premium_auto,
      List.mapM_cons, List.mapM_cons]
    have hl : List.mapM capEntry (List.map (fun nc => if nc.1 = name then
        (nc.1, Col.mk nc.2.dtype (List.map f nc.2.cells)) else nc) l) =
        Except.map (mapColumn name f) (List.mapM capEntry l) := by
      rw [← cap_monthly_premium_auto, ← cap_monthly_premium_auto, ← mapColumn]
      exact ih
    by_cases h1 : nc.1 = name
    · have h2 : ¬ nc.1 = "monthly_premium_auto" := by rw [h1]; exact hname
      rw [if_pos h1]
      rw [capEntry_of_ne _ (by simpa using h2), capEntry_of_ne nc h2, hl]
      cases hrest : List.mapM capEntry l with
      | error e => rfl
      | ok us => simp [mapColumn, h1]
    · rw [if_neg h1]
      cases hcap : capEntry nc with
      | error e => rfl
      | ok b =>
        rw [hl]
        cases hrest : List.mapM capEntry l with
        | error e => rfl
        | ok us =>
          have hb1 := capEntry_fst nc b hcap
          simp [mapColumn, hb1, h1]

theorem clean_data_eq_specOrder (df : Table) : clean_data df = clean_data_specOrder df := by
  rw [clean_data, clean_data_specOrder]
  have h := cap_mapColumn_comm "policy_type" (by decide) (applyMap policyMap)
    (clean_state_names (clean_education (clean_gender (strip_text_columns
      (remove_duplicates (remove_empty_rows_columns (rename_columns (clean_column_names df))))))))
  rw [show clean_policy_type (clean_state_names (clean_education (clean_gender (strip_text_columns
      (remove_duplicates (remove_empty_rows_columns (rename_columns (clean_column_names df)))))))) =
      mapColumn "policy_type" (applyMap policyMap) (clean_state_names (clean_education (clean_gender
      (strip_text_columns (remove_duplicates (remove_empty_rows_columns (rename_columns
      (clean_column_names df)))))))) from rfl, h]
  cases hc : cap_monthly_premium_auto (clean_state_names (clean_education (clean_gender
      (strip_text_columns (remove_duplicates (remove_empty_rows_columns (rename_columns
      (clean_column_names df)))))))) with
  | error e => rfl
  | ok u => simp [clean_policy_type]

/-! ### Claim C5: implemented stage order ≡ specified stage order -/

/-- C5: `clean_data` applies the premium cap before the policy-type mapping,
while the spec's §4.8 order applies the whole categorical block (ending with
policy type) before the numeric block (starting with the cap); the two
touch different columns and commute, so the implemented pipeline is
observationally equivalent to the specified stage sequence on every input
table (including on tables where the capping stage fails). -/
theorem claim_C5_stage_order (df : Table) : clean_data df = clean_data_specOrder df :=
  clean_data_eq_specOrder df

/-! ### Claim C1: the missing-value stage leaves no cell missing -/

theorem zip_map_self {α β : Type} (g : α → β) (l : List α) :
    l.zip (l.map g) = l.map (fun x => (x, g x)) := by
  conv_lhs => rw [show l.zip (l.map g) = (l.map id).zip (l.map g) by rw [List.map_id]]
  rw [List.zip_map']
  rfl

theorem cellAt_get? (c : Col) (i : ℕ) : cellAt c i = (c.cells.get? i).getD Val.na := by
  simp [cellAt, List.getD_eq_getD_get?]

/-- C1: after `handle_missing_values` — the last stage of `clean_data` — no
cell is missing: a cell of a numeric-dtype column that was missing at the
stage's input is 0 in the output, a missing cell of any other column is the
literal text "unknown", and every non-missing cell is unchanged (names,
dtypes and the column count are also untouched). -/
theorem claim_C1_fill_missing (t : Table) :
    nCols (handle_missing_values t) = nCols t ∧
    ∀ p ∈ t.zip (handle_missing_values t),
      (p.2.1 = p.1.1 ∧ (p.2.2).dtype = (p.1.2).dtype) ∧
      (∀ i, i < (p.1.2).cells.length → cellAt p.1.2 i = Val.na →
        cellAt p.2.2 i = (if (p.1.2).dtype = Dtype.numeric then Val.num 0 else Val.str "unknown")) ∧
      (∀ i, ¬ cellAt p.1.2 i = Val.na → cellAt p.2.2 i = cellAt p.1.2 i) ∧
      (∀ v ∈ (p.2.2).cells, ¬ v = Val.na) := by
  constructor
  · exact nCols_missing t
  intro p hp
  rw [handle_missing_values, zip_map_self] at hp
  simp only [List.mem_map] at hp
  obtain ⟨nc, hmem, rfl⟩ := hp
  refine ⟨⟨rfl, rfl⟩, ?_, ?_, ?_⟩
  · intro i hi hna
    have hi' : i < nc.2.cells.length := hi
    have hna' : cellAt nc.2 i = Val.na := hna
    rw [cellAt_get?] at hna'
    rw [cellAt_get?]
    simp only [List.get?_map]
    cases hv : nc.2.cells.get? i with
    | none => rw [List.get?_eq_none] at hv; omega
    | some v =>
      rw [hv] at hna'
      simp only [Option.getD_some] at hna'
      subst hna'
      simp [hv]
  · intro i hna
    have hna' : ¬ cellAt nc.2 i = Val.na := hna
    show cellAt (Col.mk nc.2.dtype (nc.2.cells.map _)) i = cellAt nc.2 i
    rw [cellAt_get?] at hna' ⊢
    rw [cellAt_get? nc.2]
    simp only [List.get?_map]
    cases hv : nc.2.cells.get? i with
    | none => rw [hv] at hna'; simp at hna'
    | some v =>
      rw [hv] at hna'
      simp only [Option.getD_some] at hna'
      simp [hv, hna']
  · intro v hv
    simp only [List.mem_map] at hv
    obtain ⟨w, hw, rfl⟩ := hv
    by_cases hwna : w = Val.na
    · subst hwna
      by_cases hd : nc.2.dtype = Dtype.numeric <;> simp [hd]
    · simp [hwna]

/-- Witness for C1 at a concrete two-column table: the missing numeric cell
becomes 0 and the missing object cell becomes "unknown". -/
theorem claim_C1_fill_missing_witness :
    cellAt (Col.mk Dtype.numeric [Val.num 5, Val.num 0]) 1 = Val.num 0 ∧
    cellAt (Col.mk Dtype.object [Val.str "x", Val.str "unknown"]) 1 = Val.str "unknown" := by
  have h := claim_C1_fill_missing
    [("a", Col.mk Dtype.numeric [Val.num 5, Val.na]), ("b", Col.mk Dtype.object [Val.str "x", Val.na])]
  constructor
  · have ha := (h.2 (("a", Col.mk Dtype.numeric [Val.num 5, Val.na]),
      ("a", Col.mk Dtype.numeric [Val.num 5, Val.num 0])) (by decide)).2.1 1 (by decide) (by decide)
    simpa using ha
  · have hb := (h.2 (("b", Col.mk Dtype.object [Val.str "x", Val.na]),
      ("b", Col.mk Dtype.object [Val.str "x", Val.str "unknown"])) (by decide)).2.1 1 (by decide) (by decide)
    simpa using hb

/-! ### Claim C2: the text-normalisation stage and missing cells -/

/-- C2 (code evaluated at the failing input): `strip_text_columns` turns the
missing cell of an object column into the non-missing literal string "nan" —
`astype(str)` renders NaN as "nan" before strip/lowercase — instead of
leaving it missing as the spec requires. -/
theorem claim_C2_strip_na_eval :
    strip_text_columns [("note", Col.mk Dtype.object [Val.str " A ", Val.na])] =
      [("note", Col.mk Dtype.object [Val.str "a", Val.str "nan"])] ∧
    ¬ (Val.str "nan" = Val.na) := by
  decide

/-! ### Claim C3: the pipeline is not total -/

/-- C3 (code evaluated at the failing input): on a syntactically valid table
whose `monthly_premium_auto` column holds text, `clean_data` raises (the
comparison `df['monthly_premium_auto'] > 1000` is a `TypeError` between str
and int), instead of completing as the spec requires. -/
theorem claim_C3_not_total_eval :
    clean_data [("monthly_premium_auto", Col.mk Dtype.object [Val.str "high"])] =
      Except.error () := by
  rfl

/-! ### Claim C9: lifetime-value parsing -/

/-- C9: on every table, the lifetime-value stage leaves every column other
than `customer_lifetime_value` unchanged, and rewrites that column to numeric
dtype where each cell is obtained by taking the cell's string form, removing
every `%`, trimming whitespace, and parsing as a number — the parsed number
when parsing succeeds, missing (not an error) when it fails. -/
theorem claim_C9_lifetime_parse (t : Table) :
    ∀ p ∈ t.zip (clean_customer_lifetime_value t),
      p.2.1 = p.1.1 ∧
      (¬ p.1.1 = "customer_lifetime_value" → p.2.2 = p.1.2) ∧
      (p.1.1 = "customer_lifetime_value" →
        (p.2.2).dtype = Dtype.numeric ∧
        (p.2.2).cells.length = (p.1.2).cells.length ∧
        ∀ i, i < (p.1.2).cells.length →
          ((∀ q, parseNumList (pyTrim (((pyStr (cellAt p.1.2 i)).data.filter
              (fun c => !decide (c = '%'))))) = some q → cellAt p.2.2 i = Val.num q) ∧
           (parseNumList (pyTrim (((pyStr (cellAt p.1.2 i)).data.filter
              (fun c => !decide (c = '%'))))) = none → cellAt p.2.2 i = Val.na))) := by
  intro p hp
  rw [clean_customer_lifetime_value, zip_map_self] at hp
  simp only [List.mem_map] at hp
  obtain ⟨nc, hmem, rfl⟩ := hp
  by_cases hname : nc.1 = "customer_lifetime_value"
  · refine ⟨by simp [hname], by simp [hname], fun _ => ⟨by simp [hname], by simp [hname], ?_⟩⟩
    intro i hi
    have hi' : i < nc.2.cells.length := hi
    have hcell : cellAt ((fun nc => if nc.1 = "customer_lifetime_value" then
        (nc.1, Col.mk Dtype.numeric (nc.2.cells.map clvCell)) else nc) nc).2 i =
        clvCell (cellAt nc.2 i) := by
      simp only [hname, if_pos]
      rw [cellAt_get?, cellAt_get?]
      simp only [List.get?_map]
      cases hv : nc.2.cells.get? i with
      | none => rw [List.get?_eq_none] at hv; omega
      | some v => simp
    constructor
    · intro q hq
      rw [hcell, clvCell, hq]
    · intro hq
      rw [hcell, clvCell, hq]
  · refine ⟨by simp [hname], fun _ => by simp [hname], fun h => absurd h hname⟩

/-- Witness for C9: the spec's own examples — "12.5%" parses to 12.5, while
"bad-value" fails to parse and becomes missing. -/
theorem claim_C9_lifetime_parse_witness :
    cellAt (Col.mk Dtype.numeric [Val.num (25 / 2), Val.na]) 0 = Val.num (25 / 2) ∧
    cellAt (Col.mk Dtype.numeric [Val.num (25 / 2), Val.na]) 1 = Val.na := by
  have hparse : parseNumList (pyTrim (((pyStr (Val.str "12.5%")).data.filter
      (fun c => !decide (c = '%'))))) = some (25 / 2 : ℚ) := by
    have h1 : pyTrim (((pyStr (Val.str "12.5%")).data.filter (fun c => !decide (c = '%')))) =
        ['1', '2', '.', '5'] := by decide
    rw [h1]
    have h2 : parseNumList ['1', '2', '.', '5'] =
        some ((1 : ℚ) * ((digitsVal ['1', '2'] : ℚ) +
          (digitsVal ['5'] : ℚ) / 10 ^ (['5'] : List Char).length)) := rfl
    rw [h2]
    norm_num [digitsVal, digitVal]
  have hc1 : clvCell (Val.str "12.5%") = Val.num (25 / 2) := by rw [clvCell, hparse]
  have hc2 : clvCell (Val.str "bad-value") = Val.na := by
    rw [clvCell, show parseNumList (pyTrim (((pyStr (Val.str "bad-value")).data.filter
      (fun c => !decide (c = '%'))))) = none by decide]
  have hT : clean_customer_lifetime_value
      [("customer_lifetime_value", Col.mk Dtype.object [Val.str "12.5%", Val.str "bad-value"])] =
      [("customer_lifetime_value", Col.mk Dtype.numeric [Val.num (25 / 2), Val.na])] := by
    simp [clean_customer_lifetime_value, hc1, hc2]
  have hp := claim_C9_lifetime_parse
    [("customer_lifetime_value", Col.mk Dtype.object [Val.str "12.5%", Val.str "bad-value"])]
    (("customer_lifetime_value", Col.mk Dtype.object [Val.str "12.5%", Val.str "bad-value"]),
     ("customer_lifetime_value", Col.mk Dtype.numeric [Val.num (25 / 2), Val.na]))
    (by rw [hT]; simp)
  have hq := (hp.2.2 rfl).2.2
  exact ⟨(hq 0 (by decide)).1 (25 / 2) hparse, (hq 1 (by decide)).2 (by decide)⟩

/-! ### Claim C10: column-specific stages touch only their target column -/

theorem framedOn_mapColumn (name : String) (f : Val → Val) (t : Table) :
    FramedOn name t (mapColumn name f t) := by
  constructor
  · induction t with
    | nil => rfl
    | cons nc l ih =>
      simp only [mapColumn, List.map_cons] at ih ⊢
      by_cases h : nc.1 = name <;> simp [h, ih]
  · intro p hp
    rw [mapColumn, zip_map_self] at hp
    simp only [List.mem_map] at hp
    obtain ⟨nc, hmem, rfl⟩ := hp
    by_cases h : nc.1 = name <;> simp [h]

theorem framedOn_clv (t : Table) :
    FramedOn "customer_lifetime_value" t (clean_customer_lifetime_value t) := by
  constructor
  · induction t with
    | nil => rfl
    | cons nc l ih =>
      simp only [clean_customer_lifetime_value, List.map_cons] at ih ⊢
      by_cases h : nc.1 = "customer_lifetime_value" <;> simp [h, ih]
  · intro p hp
    rw [clean_customer_lifetime_value, zip_map_self] at hp
    simp only [List.mem_map] at hp
    obtain ⟨nc, hmem, rfl⟩ := hp
    by_cases h : nc.1 = "customer_lifetime_value" <;> simp [h]

theorem framedOn_cap (t u : Table) (h : cap_monthly_premium_auto t = Except.ok u) :
    FramedOn "monthly_premium_auto" t u := by
  induction t generalizing u with
  | nil =>
    rw [cap_monthly_premium_auto, List.mapM_nil] at h
    cases h
    exact ⟨rfl, by simp⟩
  | cons a l ih =>
    rw [cap_monthly_premium_auto, List.mapM_cons] at h
    cases hcap : capEntry a with
    | error e => rw [hcap] at h; cases h
    | ok b =>
      rw [hcap] at h
      cases hrest : l.mapM capEntry with
      | error e => rw [hrest] at h; cases h
      | ok us =>
        rw [hrest] at h
        simp only [except_bind_ok] at h
        cases h
        obtain ⟨ih1, ih2⟩ := ih us hrest
        have hfst := capEntry_fst a b hcap
        constructor
        · rw [List.map_cons, List.map_cons, ih1, hfst]
        · intro p hp
          rcases List.mem_cons.mp hp with hp | hp
          · cases hp
            constructor
            · intro hne
              rw [capEntry_of_ne a hne] at hcap
              cases hcap
              rfl
            · rw [capEntry] at hcap
              by_cases hm : a.1 = "monthly_premium_auto"
              · rw [if_pos hm] at hcap
                cases hcs : a.2.cells.mapM capCell with
                | error e => rw [hcs] at hcap; cases hcap
                | ok cs =>
                  rw [hcs] at hcap
                  cases hcap
                  simpa using mapM_except_length _ _ _ hcs
              · rw [if_neg hm] at hcap; cases hcap; rfl
          · exact ih2 p hp

/-- C10: each column-specific stage (`clean_gender`, `clean_education`,
`clean_state_names`, `clean_policy_type`, `clean_customer_lifetime_value`,
and — whenever it succeeds — `cap_monthly_premium_auto`) modifies at most its
single target column: the set and order of column names, every other column's
values, and the row count are identical between input and output, whether or
not the target column is present. -/
theorem claim_C10_frame (t : Table) :
    FramedOn "gender" t (clean_gender t) ∧
    FramedOn "education" t (clean_education t) ∧
    FramedOn "state" t (clean_state_names t) ∧
    FramedOn "policy_type" t (clean_policy_type t) ∧
    FramedOn "customer_lifetime_value" t (clean_customer_lifetime_value t) ∧
    ∀ u, cap_monthly_premium_auto t = Except.ok u → FramedOn "monthly_premium_auto" t u :=
  ⟨framedOn_mapColumn _ _ t, framedOn_mapColumn _ _ t, framedOn_mapColumn _ _ t,
   framedOn_mapColumn _ _ t, framedOn_clv t, fun u h => framedOn_cap t u h⟩

/-- Witness for C10 at a concrete four-column table: the non-target columns
come out of the gender stage and the (successful) cap stage untouched. -/
theorem claim_C10_frame_witness :
    Col.mk Dtype.numeric [Val.num 3] = Col.mk Dtype.numeric [Val.num 3] ∧
    Col.mk Dtype.object [Val.str "x"] = Col.mk Dtype.object [Val.str "x"] := by
  have h := claim_C10_frame
    [("age", Col.mk Dtype.numeric [Val.num 3]),
     ("gender", Col.mk Dtype.object [Val.str "male"]),
     ("monthly_premium_auto", Col.mk Dtype.numeric [Val.num 1500]),
     ("note", Col.mk Dtype.object [Val.str "x"])]
  constructor
  · exact ((h.1.2 (("age", Col.mk Dtype.numeric [Val.num 3]),
      ("age", Col.mk Dtype.numeric [Val.num 3])) (by decide)).1 (by decide))
  · have hcap := h.2.2.2.2.2
      [("age", Col.mk Dtype.numeric [Val.num 3]),
       ("gender", Col.mk Dtype.object [Val.str "male"]),
       ("monthly_premium_auto", Col.mk Dtype.numeric [Val.num 1000]),
       ("note", Col.mk Dtype.object [Val.str "x"])] (by rfl)
    exact (hcap.2 (("note", Col.mk Dtype.object [Val.str "x"]),
      ("note", Col.mk Dtype.object [Val.str "x"])) (by decide)).1 (by decide)

theorem isWS_not_alnum (c : Char) (h : isWS c = true) : isAlnum (lowChar c) = false := by
  rw [isWS] at h
  simp only [Bool.or_eq_true, decide_eq_true_eq, or_assoc] at h
  rcases h with h | h | h | h | h | h <;> subst h <;> decide

theorem mem_dropWhile_of_neg (p : Char → Bool) (l : List Char) (c : Char)
    (hc : c ∈ l) (hp : p c = false) : c ∈ l.dropWhile p := by
  induction l with
  | nil => cases hc
  | cons a t ih =>
    rw [List.dropWhile_cons]
    rcases List.mem_cons.mp hc with rfl | hct
    · rw [hp]
      simp
    · by_cases ha : p a = true
      · rw [ha]
        simp only [if_true]
        exact ih hct
      · simp only [Bool.not_eq_true] at ha
        rw [ha]
        simp [hct]

theorem mem_pyTrim (l : List Char) (c : Char) (hc : c ∈ l) (hw : isWS c = false) :
    c ∈ pyTrim l := by
  rw [pyTrim]
  rw [List.mem_reverse]
  apply mem_dropWhile_of_neg _ _ _ _ hw
  rw [List.mem_reverse]
  exact mem_dropWhile_of_neg _ _ _ hc hw

theorem mem_squeezeU (l : List Char) (c : Char) (hc : c ∈ squeezeU l) : c ∈ l := by
  induction l using squeezeU.induct with
  | case1 => cases hc
  | case2 d => rw [squeezeU] at hc; exact hc
  | case3 a b rest h ih =>
    rw [squeezeU, if_pos h] at hc
    exact List.mem_cons_of_mem a (ih hc)
  | case4 a b rest h ih =>
    rw [squeezeU, if_neg h] at hc
    rcases List.mem_cons.mp hc with rfl | hct
    · exact List.mem_cons_self _ _
    · exact List.mem_cons_of_mem a (ih hct)

theorem mem_squeezeU_of_alnum (l : List Char) (c : Char) (ha : isAlnum c = true)
    (hc : c ∈ l) : c ∈ squeezeU l := by
  induction l using squeezeU.induct with
  | case1 => cases hc
  | case2 d => rw [squeezeU]; exact hc
  | case3 a b rest h ih =>
    rw [squeezeU, if_pos h]
    rcases List.mem_cons.mp hc with rfl | hct
    · simp only [Bool.and_eq_true, decide_eq_true_eq] at h
      rw [h.1] at ha
      cases ha
    · exact ih hct
  | case4 a b rest h ih =>
    rw [squeezeU, if_neg h]
    rcases List.mem_cons.mp hc with rfl | hct
    · exact List.mem_cons_self _ _
    · exact List.mem_cons_of_mem a (ih hct)

theorem head?_squeezeU (a : Char) (l : List Char) :
    (squeezeU (a :: l)).head? = some a := by
  induction l generalizing a with
  | nil => rw [squeezeU]; rfl
  | cons b rest ih =>
    by_cases h : a = '_' && b = '_'
    · rw [squeezeU, if_pos h]
      simp only [Bool.and_eq_true, decide_eq_true_eq] at h
      rw [ih b, h.1, h.2]
    · rw [squeezeU, if_neg h]
      rfl

theorem noAdjU_squeezeU (l : List Char) : noAdjU (squeezeU l) = true := by
  induction l using squeezeU.induct with
  | case1 => rfl
  | case2 d => rfl
  | case3 a b rest h ih => rw [squeezeU, if_pos h]; exact ih
  | case4 a b rest h ih =>
    rw [squeezeU, if_neg h]
    simp only [Bool.not_eq_true] at h
    cases rest with
    | nil => simp [squeezeU, noAdjU, h]
    | cons d rest' =>
      have hh := head?_squeezeU b (d :: rest')
      cases hsq : squeezeU (b :: d :: rest') with
      | nil => rw [hsq] at hh; cases hh
      | cons x xs =>
        rw [hsq] at hh ih
        simp only [List.head?_cons, Option.some_inj] at hh
        subst hh
        rw [noAdjU]
        simp [h, ih]

theorem head?_dropWhile_neg (p : Char → Bool) (l : List Char) (a : Char)
    (h : (l.dropWhile p).head? = some a) : p a = false := by
  induction l with
  | nil => cases h
  | cons b t ih =>
    rw [List.dropWhile_cons] at h
    by_cases hb : p b = true
    · simp only [hb, if_true] at h
      exact ih h
    · simp only [Bool.not_eq_true] at hb
      simp only [hb, Bool.false_eq_true, if_false, List.head?_cons, Option.some_inj] at h
      subst h
      exact hb

theorem getLast?_cons_ne (a : Char) (l : List Char) (h : ¬ l = []) :
    (a :: l).getLast? = l.getLast? := by
  cases l with
  | nil => exact absurd rfl h
  | cons b t => exact List.getLast?_cons_cons

theorem getLast?_dropWhile_ne_nil (p : Char → Bool) (l : List Char)
    (h : ¬ l.dropWhile p = []) : (l.dropWhile p).getLast? = l.getLast? := by
  induction l with
  | nil => exact absurd rfl h
  | cons b t ih =>
    rw [List.dropWhile_cons] at h ⊢
    by_cases hb : p b = true
    · simp only [hb, if_true] at h ⊢
      rw [ih h]
      refine (getLast?_cons_ne b t ?_).symm
      intro ht
      subst ht
      exact h rfl
    · simp only [Bool.not_eq_true] at hb
      simp only [hb, Bool.false_eq_true, if_false]

theorem mem_stripUnd (l : List Char) (c : Char) (hc : c ∈ stripUnd l) : c ∈ l := by
  rw [stripUnd] at hc
  rw [List.mem_reverse] at hc
  have h1 := (List.dropWhile_sublist _).subset hc
  rw [List.mem_reverse] at h1
  exact (List.dropWhile_sublist (fun c => decide (c = '_'))).subset h1

theorem mem_stripUnd_of_ne (l : List Char) (c : Char) (hne : ¬ c = '_') (hc : c ∈ l) :
    c ∈ stripUnd l := by
  rw [stripUnd, List.mem_reverse]
  apply mem_dropWhile_of_neg
  · rw [List.mem_reverse]
    exact mem_dropWhile_of_neg _ _ _ hc (by simpa using hne)
  · simpa using hne

theorem noAdjU_iff_chain (l : List Char) :
    noAdjU l = true ↔ List.Chain' (fun a b => ¬(a = '_' ∧ b = '_')) l := by
  induction l with
  | nil => simp [noAdjU]
  | cons a t ih =>
    cases t with
    | nil => simp [noAdjU]
    | cons b t' =>
      rw [noAdjU, List.chain'_cons, ← ih, Bool.and_eq_true, Bool.not_eq_true',
        Bool.and_eq_false_iff, decide_eq_false_iff_not, decide_eq_false_iff_not]
      constructor
      · rintro ⟨h1, h2⟩
        refine ⟨fun hab => ?_, h2⟩
        rcases h1 with h | h
        · exact h hab.1
        · exact h hab.2
      · rintro ⟨h1, h2⟩
        refine ⟨?_, h2⟩
        by_cases ha : a = '_'
        · right
          intro hb
          exact h1 ⟨ha, hb⟩
        · left
          exact ha

theorem noAdjU_reverse (l : List Char) (h : noAdjU l = true) : noAdjU l.reverse = true := by
  rw [noAdjU_iff_chain] at h ⊢
  rw [List.chain'_reverse]
  exact h.imp (fun a b hab => by rintro ⟨h1, h2⟩; exact hab ⟨h2, h1⟩)

theorem noAdjU_tail (a : Char) (l : List Char) (h : noAdjU (a :: l) = true) :
    noAdjU l = true := by
  cases l with
  | nil => rfl
  | cons b t =>
    rw [noAdjU, Bool.and_eq_true] at h
    exact h.2

theorem noAdjU_dropWhile (p : Char → Bool) (l : List Char) (h : noAdjU l = true) :
    noAdjU (l.dropWhile p) = true := by
  induction l with
  | nil => rfl
  | cons b t ih =>
    rw [List.dropWhile_cons]
    by_cases hb : p b = true
    · simp only [hb, if_true]
      exact ih (noAdjU_tail b t h)
    · simp only [Bool.not_eq_true] at hb
      simp only [hb, Bool.false_eq_true, if_false]
      exact h

theorem slugRun_ok : ∀ (n : ℕ) (l : List Char), l.length ≤ n →
    (∀ c ∈ l, isAlnum c = true ∨ c = '_') → noAdjU l = true → ¬ l.getLast? = some '_' →
    (slugRun false l = true ∧ (¬ l = [] → ¬ l.head? = some '_' → slugRun true l = true)) := by
  intro n
  induction n with
  | zero =>
    intro l hl hg hadj hlast
    rw [Nat.le_zero, List.length_eq_zero] at hl
    subst hl
    exact ⟨rfl, fun h => absurd rfl h⟩
  | succ n ih =>
    intro l hl hg hadj hlast
    cases l with
    | nil => exact ⟨rfl, fun h => absurd rfl h⟩
    | cons c cs =>
      have hlen : cs.length ≤ n := by
        rw [List.length_cons] at hl
        omega
      have hg' : ∀ d ∈ cs, isAlnum d = true ∨ d = '_' :=
        fun d hd => hg d (List.mem_cons_of_mem c hd)
      have hadj' : noAdjU cs = true := noAdjU_tail c cs hadj
      have hlast' : ¬ cs.getLast? = some '_' := by
        cases hcs : cs with
        | nil => simp
        | cons d ds =>
          rw [hcs] at hlast
          rw [← getLast?_cons_ne c (d :: ds) (by simp)]
          exact hlast
      constructor
      · rw [slugRun]
        by_cases hc : isAlnum c
        · rw [if_pos hc]
          exact (ih cs hlen hg' hadj' hlast').1
        · rw [if_neg hc]
          have hcu : c = '_' := by
            rcases hg c (List.mem_cons_self c cs) with h | h
            · exact absurd h hc
            · exact h
          subst hcu
          have hne : ¬ cs = [] := by
            intro hcs
            subst hcs
            exact hlast rfl
          have hhd : ¬ cs.head? = some '_' := by
            cases hcs : cs with
            | nil => exact absurd hcs hne
            | cons d ds =>
              rw [hcs] at hadj
              rw [noAdjU, Bool.and_eq_true, Bool.not_eq_true', Bool.and_eq_false_iff] at hadj
              rcases hadj.1 with h | h
              · simp at h
              · simp only [decide_eq_false_iff_not] at h
                simp only [List.head?_cons, Option.some_inj]
                intro hd
                exact h hd
          have := (ih cs hlen hg' hadj' hlast').2 hne hhd
          simp [this]
      · intro hne hhd
        rw [slugRun]
        have hc : isAlnum c = true := by
          rcases hg c (List.mem_cons_self c cs) with h | h
          · exact h
          · subst h
            exact absurd rfl hhd
        rw [if_pos hc]
        exact (ih cs hlen hg' hadj' hlast').1

theorem stripUnd_props (l : List Char) (hg : ∀ c ∈ l, isAlnum c = true ∨ c = '_')
    (hadj : noAdjU l = true) :
    (∀ c ∈ stripUnd l, isAlnum c = true ∨ c = '_') ∧ noAdjU (stripUnd l) = true ∧
    ¬ (stripUnd l).head? = some '_' ∧ ¬ (stripUnd l).getLast? = some '_' := by
  refine ⟨fun c hc => hg c (mem_stripUnd l c hc), ?_, ?_, ?_⟩
  · rw [stripUnd]
    apply noAdjU_reverse
    apply noAdjU_dropWhile
    apply noAdjU_reverse
    exact noAdjU_dropWhile _ _ hadj
  · rw [stripUnd]
    intro h
    rw [List.head?_reverse] at h
    have h2 : ¬ ((l.dropWhile (fun c => decide (c = '_'))).reverse.dropWhile
        (fun c => decide (c = '_'))) = [] := by
      intro hnil
      rw [hnil] at h
      cases h
    rw [getLast?_dropWhile_ne_nil _ _ h2, List.getLast?_reverse] at h
    have := head?_dropWhile_neg _ _ _ h
    simp at this
  · rw [stripUnd]
    intro h
    rw [List.getLast?_reverse] at h
    have := head?_dropWhile_neg _ _ _ h
    simp at this

theorem mem_of_mem_pyTrim (l : List Char) (c : Char) (hc : c ∈ pyTrim l) : c ∈ l := by
  rw [pyTrim, List.mem_reverse] at hc
  have h1 := (List.dropWhile_sublist _).subset hc
  rw [List.mem_reverse] at h1
  exact (List.dropWhile_sublist isWS).subset h1

theorem normChar_good (c : Char) : isAlnum (normChar c) = true ∨ normChar c = '_' := by
  rw [normChar]
  by_cases h : isAlnum (lowChar c) = true
  · rw [if_pos h]
    exact Or.inl h
  · rw [if_neg h]
    exact Or.inr rfl

theorem normName_pattern (s : String) :
    (s.data.any (fun c => isAlnum (lowChar c)) = true → matchesSlug (normName s).data = true) ∧
    (s.data.any (fun c => isAlnum (lowChar c)) = false → normName s = "") := by
  have hdata : (normName s).data = stripUnd (squeezeU ((pyTrim s.data).map normChar)) := rfl
  have good1 : ∀ c ∈ (pyTrim s.data).map normChar, isAlnum c = true ∨ c = '_' := by
    intro c hc
    rw [List.mem_map] at hc
    obtain ⟨x, hx, rfl⟩ := hc
    exact normChar_good x
  have good2 : ∀ c ∈ squeezeU ((pyTrim s.data).map normChar), isAlnum c = true ∨ c = '_' :=
    fun c hc => good1 c (mem_squeezeU _ c hc)
  have hadj2 : noAdjU (squeezeU ((pyTrim s.data).map normChar)) = true := noAdjU_squeezeU _
  obtain ⟨good3, hadj3, hhd3, hlast3⟩ := stripUnd_props _ good2 hadj2
  constructor
  · intro hany
    rw [List.any_eq_true] at hany
    obtain ⟨c, hc, hcal⟩ := hany
    have hws : isWS c = false := by
      cases hw : isWS c
      · rfl
      · rw [isWS_not_alnum c hw] at hcal
        cases hcal
    have hc0 : c ∈ pyTrim s.data := mem_pyTrim _ c hc hws
    have hc1 : normChar c ∈ (pyTrim s.data).map normChar := List.mem_map_of_mem normChar hc0
    have hnc : normChar c = lowChar c := by rw [normChar, if_pos hcal]
    have hal : isAlnum (normChar c) = true := by rw [hnc]; exact hcal
    have hc2 : normChar c ∈ squeezeU ((pyTrim s.data).map normChar) :=
      mem_squeezeU_of_alnum _ _ hal hc1
    have hneu : ¬ normChar c = '_' := by
      intro h
      rw [h] at hal
      cases hal
    have hc3 : normChar c ∈ stripUnd (squeezeU ((pyTrim s.data).map normChar)) :=
      mem_stripUnd_of_ne _ _ hneu hc2
    have hne : ¬ stripUnd (squeezeU ((pyTrim s.data).map normChar)) = [] := by
      intro h
      rw [h] at hc3
      cases hc3
    rw [hdata, matchesSlug]
    exact (slugRun_ok (stripUnd (squeezeU ((pyTrim s.data).map normChar))).length _
      le_rfl good3 hadj3 hlast3).2 hne hhd3
  · intro hnone
    rw [List.any_eq_false] at hnone
    have hall : ∀ c ∈ squeezeU ((pyTrim s.data).map normChar), decide (c = '_') = true := by
      intro c hc
      have hc1 := mem_squeezeU _ c hc
      rw [List.mem_map] at hc1
      obtain ⟨x, hx, rfl⟩ := hc1
      have hxa := hnone x (mem_of_mem_pyTrim _ x hx)
      simp only [decide_eq_true_eq]
      rw [normChar, if_neg (by simp [hxa])]
    have hempty : stripUnd (squeezeU ((pyTrim s.data).map normChar)) = [] := by
      rw [stripUnd]
      rw [List.dropWhile_eq_nil_iff.mpr hall]
      rfl
    have hd : (normName s).data = [] := by rw [hdata, hempty]
    apply String.ext
    rw [hd]

/-! ### Claim C8: normalised column names match the slug pattern -/

/-- C8 amended: a normalised column name matches `[a-z0-9]+(_[a-z0-9]+)*`
whenever the original name contains at least one character that is in
`[a-z0-9]` after lowercasing; a name with no such character (e.g. `###`)
normalises to the empty string, which does not match the pattern. -/
theorem claim_C8_name_pattern (s : String) :
    (s.data.any (fun c => isAlnum (lowChar c)) = true → matchesSlug (normName s).data = true) ∧
    (s.data.any (fun c => isAlnum (lowChar c)) = false → normName s = "") :=
  normName_pattern s

/-- Witness for C8 at concrete names: a mixed punctuation/case name
normalises to a slug match, and an all-punctuation name to the empty string. -/
theorem claim_C8_name_pattern_witness :
    matchesSlug (normName " Monthly Premium-Auto ").data = true ∧ normName "###" = "" :=
  ⟨(claim_C8_name_pattern " Monthly Premium-Auto ").1 (by decide),
   (claim_C8_name_pattern "###").2 (by decide)⟩

/-- C8 counterexample: the name `###` (no alphanumeric characters) is
normalised to the empty string, which does not match `[a-z0-9]+(_[a-z0-9]+)*`
— so not every produced column name matches the pattern. -/
theorem claim_C8_name_pattern_cex :
    clean_column_names [("###", Col.mk Dtype.object [Val.str "x"])] =
      [("", Col.mk Dtype.object [Val.str "x"])] ∧
    matchesSlug "".data = false := by
  decide


/-! ### Claim C4: trailing-whitespace duplicates are not merged -/

theorem dropWhile_ws_append (l : List Char) :
    (l ++ [' ']).dropWhile isWS =
      (if l.dropWhile isWS = [] then [] else l.dropWhile isWS ++ [' ']) := by
  induction l with
  | nil => rfl
  | cons a t ih =>
    rw [List.cons_append, List.dropWhile_cons, List.dropWhile_cons]
    by_cases ha : isWS a = true
    · simp only [ha, if_true]
      exact ih
    · simp only [Bool.not_eq_true] at ha
      simp [ha]

theorem pyTrim_append_space (l : List Char) : pyTrim (l ++ [' ']) = pyTrim l := by
  rw [pyTrim, pyTrim, dropWhile_ws_append]
  by_cases h : l.dropWhile isWS = []
  · rw [if_pos h, h]
  · rw [if_neg h]
    rw [List.reverse_append]
    show ((' ' :: (l.dropWhile isWS).reverse).dropWhile isWS).reverse = _
    rw [List.dropWhile_cons]
    simp only [show isWS ' ' = true from rfl, if_true]

theorem pyTrimS_append_space (s : String) : pyTrimS (s ++ " ") = pyTrimS s := by
  rw [pyTrimS, pyTrimS, String.data_append]
  rw [show (" " : String).data = [' '] from rfl, pyTrim_append_space]

theorem clean_data_trailing_ws_pair (s : String) :
    Except.map nRows (clean_data [("customer", Col.mk Dtype.object
      [Val.str s, Val.str (s ++ " ")])]) = Except.ok 2 ∧
    Except.map (fun u => decide (rowAt u 0 = rowAt u 1))
      (clean_data [("customer", Col.mk Dtype.object [Val.str s, Val.str (s ++ " ")])]) =
      Except.ok true := by
  have hsne : ¬ s = s ++ " " := by
    intro h
    have hlen := congrArg String.length h
    rw [String.length_append, show (" " : String).length = 1 from rfl] at hlen
    omega
  have hrow : ¬ rowAt [("customer", Col.mk Dtype.object [Val.str s, Val.str (s ++ " ")])] 0 =
      rowAt [("customer", Col.mk Dtype.object [Val.str s, Val.str (s ++ " ")])] 1 := by
    simp only [rowAt, cellAt, List.map_cons, List.map_nil, List.getD]
    intro h
    simp only [List.cons.injEq, and_true] at h
    exact hsne (by injection h)
  have h4 : remove_duplicates [("customer", Col.mk Dtype.object
      [Val.str s, Val.str (s ++ " ")])] = [("customer", Col.mk Dtype.object
      [Val.str s, Val.str (s ++ " ")])] := by
    rw [remove_duplicates]
    have hkeep : (List.range (nRows [("customer", Col.mk Dtype.object
        [Val.str s, Val.str (s ++ " ")])])).filter (fun i => !((List.range i).any
        (fun j => decide (rowAt [("customer", Col.mk Dtype.object
          [Val.str s, Val.str (s ++ " ")])] j = rowAt [("customer", Col.mk Dtype.object
          [Val.str s, Val.str (s ++ " ")])] i)))) = [0, 1] := by
      show List.filter _ [0, 1] = [0, 1]
      rw [List.filter_cons, List.filter_cons, List.filter_nil]
      simp [hrow]
    rw [hkeep]
    rfl
  have hstrip : strip_text_columns [("customer", Col.mk Dtype.object
      [Val.str s, Val.str (s ++ " ")])] = [("customer", Col.mk Dtype.object
      [Val.str (pyLowerS (pyTrimS s)), Val.str (pyLowerS (pyTrimS s))])] := by
    show [("customer", Col.mk Dtype.object
      [Val.str (pyLowerS (pyTrimS (pyStr (Val.str s)))),
       Val.str (pyLowerS (pyTrimS (pyStr (Val.str (s ++ " ")))))])] = _
    rw [show pyStr (Val.str s) = s from rfl,
      show pyStr (Val.str (s ++ " ")) = s ++ " " from rfl, pyTrimS_append_space]
  have hchain : clean_data [("customer", Col.mk Dtype.object [Val.str s, Val.str (s ++ " ")])] =
      Except.ok (handle_missing_values (convert_data_types [("customer", Col.mk Dtype.object
        [Val.str (pyLowerS (pyTrimS s)), Val.str (pyLowerS (pyTrimS s))])])) := by
    rw [clean_data]
    rw [show clean_column_names [("customer", Col.mk Dtype.object
        [Val.str s, Val.str (s ++ " ")])] = [("customer", Col.mk Dtype.object
        [Val.str s, Val.str (s ++ " ")])] from rfl]
    rw [show rename_columns [("customer", Col.mk Dtype.object
        [Val.str s, Val.str (s ++ " ")])] = [("customer", Col.mk Dtype.object
        [Val.str s, Val.str (s ++ " ")])] from rfl]
    rw [show remove_empty_rows_columns [("customer", Col.mk Dtype.object
        [Val.str s, Val.str (s ++ " ")])] = [("customer", Col.mk Dtype.object
        [Val.str s, Val.str (s ++ " ")])] from rfl]
    rw [h4, hstrip]
    rw [show clean_gender [("customer", Col.mk Dtype.object
        [Val.str (pyLowerS (pyTrimS s)), Val.str (pyLowerS (pyTrimS s))])] =
        [("customer", Col.mk Dtype.object
        [Val.str (pyLowerS (pyTrimS s)), Val.str (pyLowerS (pyTrimS s))])] from rfl]
    rw [show clean_education [("customer", Col.mk Dtype.object
        [Val.str (pyLowerS (pyTrimS s)), Val.str (pyLowerS (pyTrimS s))])] =
        [("customer", Col.mk Dtype.object
        [Val.str (pyLowerS (pyTrimS s)), Val.str (pyLowerS (pyTrimS s))])] from rfl]
    rw [show clean_state_names [("customer", Col.mk Dtype.object
        [Val.str (pyLowerS (pyTrimS s)), Val.str (pyLowerS (pyTrimS s))])] =
        [("customer", Col.mk Dtype.object
        [Val.str (pyLowerS (pyTrimS s)), Val.str (pyLowerS (pyTrimS s))])] from rfl]
    rw [show cap_monthly_premium_auto [("customer", Col.mk Dtype.object
        [Val.str (pyLowerS (pyTrimS s)), Val.str (pyLowerS (pyTrimS s))])] =
        Except.ok [("customer", Col.mk Dtype.object
        [Val.str (pyLowerS (pyTrimS s)), Val.str (pyLowerS (pyTrimS s))])] from rfl]
    rw [except_bind_ok]
    rfl
  have hconv : ∃ d x, convert_data_types [("customer", Col.mk Dtype.object
      [Val.str (pyLowerS (pyTrimS s)), Val.str (pyLowerS (pyTrimS s))])] =
      [("customer", Col.mk d [x, x])] ∧ ¬ x = Val.na := by
    rw [convert_data_types, List.map_cons, List.map_nil]
    cases hp : parseNumList (pyLowerS (pyTrimS s)).data with
    | some q =>
      refine ⟨Dtype.numeric, Val.num q, ?_, by simp⟩
      have hnum : toNumericCol (Col.mk Dtype.object [Val.str (pyLowerS (pyTrimS s)),
          Val.str (pyLowerS (pyTrimS s))]) = Col.mk Dtype.numeric [Val.num q, Val.num q] := by
        rw [show toNumericCol (Col.mk Dtype.object [Val.str (pyLowerS (pyTrimS s)),
            Val.str (pyLowerS (pyTrimS s))]) =
          (match [Val.str (pyLowerS (pyTrimS s)),
              Val.str (pyLowerS (pyTrimS s))].mapM toNumericCell with
            | some cs => Col.mk Dtype.numeric cs
            | none => Col.mk Dtype.object [Val.str (pyLowerS (pyTrimS s)),
                Val.str (pyLowerS (pyTrimS s))]) from rfl]
        rw [List.mapM_cons, List.mapM_cons, List.mapM_nil]
        rw [show toNumericCell (Val.str (pyLowerS (pyTrimS s))) =
          (parseNumList (pyLowerS (pyTrimS s)).data).map Val.num from rfl, hp]
        rfl
      rw [hnum]
      rfl
    | none =>
      have hnum : toNumericCol (Col.mk Dtype.object [Val.str (pyLowerS (pyTrimS s)),
          Val.str (pyLowerS (pyTrimS s))]) = Col.mk Dtype.object
          [Val.str (pyLowerS (pyTrimS s)), Val.str (pyLowerS (pyTrimS s))] := by
        rw [show toNumericCol (Col.mk Dtype.object [Val.str (pyLowerS (pyTrimS s)),
            Val.str (pyLowerS (pyTrimS s))]) =
          (match [Val.str (pyLowerS (pyTrimS s)),
              Val.str (pyLowerS (pyTrimS s))].mapM toNumericCell with
            | some cs => Col.mk Dtype.numeric cs
            | none => Col.mk Dtype.object [Val.str (pyLowerS (pyTrimS s)),
                Val.str (pyLowerS (pyTrimS s))]) from rfl]
        rw [List.mapM_cons, List.mapM_cons, List.mapM_nil]
        rw [show toNumericCell (Val.str (pyLowerS (pyTrimS s))) =
          (parseNumList (pyLowerS (pyTrimS s)).data).map Val.num from rfl, hp]
        rfl
      rw [hnum]
      cases hd : parseDateList (pyLowerS (pyTrimS s)).data with
      | some v =>
        refine ⟨Dtype.datetime, Val.dt v, ?_, by simp⟩
        show [("customer", toDatetimeCol (Col.mk Dtype.object
          [Val.str (pyLowerS (pyTrimS s)), Val.str (pyLowerS (pyTrimS s))]))] = _
        rw [show toDatetimeCol (Col.mk Dtype.object [Val.str (pyLowerS (pyTrimS s)),
            Val.str (pyLowerS (pyTrimS s))]) =
          (match [Val.str (pyLowerS (pyTrimS s)),
              Val.str (pyLowerS (pyTrimS s))].mapM toDatetimeCell with
            | some cs => Col.mk Dtype.datetime cs
            | none => Col.mk Dtype.object [Val.str (pyLowerS (pyTrimS s)),
                Val.str (pyLowerS (pyTrimS s))]) from rfl]
        rw [List.mapM_cons, List.mapM_cons, List.mapM_nil]
        rw [show toDatetimeCell (Val.str (pyLowerS (pyTrimS s))) =
          (parseDateList (pyLowerS (pyTrimS s)).data).map Val.dt from rfl, hd]
        rfl
      | none =>
        refine ⟨Dtype.object, Val.str (pyLowerS (pyTrimS s)), ?_, by simp⟩
        show [("customer", toDatetimeCol (Col.mk Dtype.object
          [Val.str (pyLowerS (pyTrimS s)), Val.str (pyLowerS (pyTrimS s))]))] = _
        rw [show toDatetimeCol (Col.mk Dtype.object [Val.str (pyLowerS (pyTrimS s)),
            Val.str (pyLowerS (pyTrimS s))]) =
          (match [Val.str (pyLowerS (pyTrimS s)),
              Val.str (pyLowerS (pyTrimS s))].mapM toDatetimeCell with
            | some cs => Col.mk Dtype.datetime cs
            | none => Col.mk Dtype.object [Val.str (pyLowerS (pyTrimS s)),
                Val.str (pyLowerS (pyTrimS s))]) from rfl]
        rw [List.mapM_cons, List.mapM_cons, List.mapM_nil]
        rw [show toDatetimeCell (Val.str (pyLowerS (pyTrimS s))) =
          (parseDateList (pyLowerS (pyTrimS s)).data).map Val.dt from rfl, hd]
        rfl
  obtain ⟨d, x, hcv, hxna⟩ := hconv
  have hfill : handle_missing_values [("customer", Col.mk d [x, x])] =
      [("customer", Col.mk d [x, x])] := by
    simp [handle_missing_values, hxna]
  rw [hchain, hcv, hfill]
  constructor
  · rfl
  · simp [rowAt, cellAt]

/-- C4 counterexample: a table with two rows identical except for trailing
whitespace in one text field.  Deduplication runs before text normalisation,
so both rows survive the whole pipeline (now cell-for-cell identical): the
output contains two rows, not one. -/
theorem claim_C4_trailing_ws_cex :
    clean_data [("customer", Col.mk Dtype.object [Val.str "x", Val.str "x "])] =
      Except.ok [("customer", Col.mk Dtype.object [Val.str "x", Val.str "x"])] ∧
    nRows [("customer", Col.mk Dtype.object [Val.str "x", Val.str "x"])] = 2 :=
  ⟨rfl, rfl⟩

/-- C4 amended: for a table of two rows that differ only by trailing
whitespace in one text field, the full pipeline keeps BOTH rows — the rows
are distinct when deduplication runs (before text normalisation), and no
later stage removes rows — and text normalisation makes them identical in
the output. -/
theorem claim_C4_trailing_ws (s : String) :
    Except.map nRows (clean_data [("customer", Col.mk Dtype.object
      [Val.str s, Val.str (s ++ " ")])]) = Except.ok 2 ∧
    Except.map (fun u => decide (rowAt u 0 = rowAt u 1))
      (clean_data [("customer", Col.mk Dtype.object [Val.str s, Val.str (s ++ " ")])]) =
      Except.ok true :=
  clean_data_trailing_ws_pair s


/-! ### String and numeric-string lemmas for the idempotence analysis -/

theorem isWS_lowChar (c : Char) : isWS (lowChar c) = isWS c := by
  unfold lowChar
  split <;> rfl

theorem lowChar_of_alnum (c : Char) (h : isAlnum c = true) : lowChar c = c := by
  unfold lowChar
  split <;> first | rfl | exact absurd h (by decide)

theorem lowChar_range (c : Char) : isAlnum (lowChar c) = true ∨ lowChar c = c := by
  unfold lowChar
  split <;> first | exact Or.inl (by decide) | exact Or.inr rfl

theorem lowChar_idem (c : Char) : lowChar (lowChar c) = lowChar c := by
  rcases lowChar_range c with h | h
  · exact lowChar_of_alnum _ h
  · rw [h]
    exact h

theorem isWS_of_alnum (c : Char) (h : isAlnum c = true) : isWS c = false := by
  cases hw : isWS c
  · rfl
  · rw [isWS] at hw
    simp only [Bool.or_eq_true, decide_eq_true_eq, or_assoc] at hw
    rcases hw with hw | hw | hw | hw | hw | hw <;> subst hw <;> exact absurd h (by decide)

theorem dropWhile_head_false (p : Char → Bool) (l : List Char)
    (h : ∀ a, l.head? = some a → p a = false) : l.dropWhile p = l := by
  cases l with
  | nil => rfl
  | cons a t =>
    rw [List.dropWhile_cons]
    simp [h a rfl]

theorem dropWhile_map_lowChar (l : List Char) :
    (l.map lowChar).dropWhile isWS = (l.dropWhile isWS).map lowChar := by
  induction l with
  | nil => rfl
  | cons a t ih =>
    rw [List.map_cons, List.dropWhile_cons, List.dropWhile_cons, isWS_lowChar]
    by_cases h : isWS a = true
    · simp only [h, if_true]
      exact ih
    · simp only [Bool.not_eq_true] at h
      simp [h]

theorem pyTrim_map_lowChar (l : List Char) :
    pyTrim (l.map lowChar) = (pyTrim l).map lowChar := by
  rw [pyTrim, pyTrim, dropWhile_map_lowChar, ← List.map_reverse, dropWhile_map_lowChar,
    ← List.map_reverse]

theorem trim_comp_last (p : Char → Bool) (l : List Char) :
    ∀ a, (((l.dropWhile p).reverse.dropWhile p).reverse).getLast? = some a → p a = false := by
  intro a ha
  rw [List.getLast?_reverse] at ha
  exact head?_dropWhile_neg _ _ _ ha

theorem trim_comp_head (p : Char → Bool) (l : List Char) :
    ∀ a, (((l.dropWhile p).reverse.dropWhile p).reverse).head? = some a → p a = false := by
  intro a ha
  rw [List.head?_reverse] at ha
  have hne : ¬ ((l.dropWhile p).reverse.dropWhile p) = [] := by
    intro hnil
    rw [hnil] at ha
    cases ha
  rw [getLast?_dropWhile_ne_nil _ _ hne, List.getLast?_reverse] at ha
  exact head?_dropWhile_neg _ _ _ ha

theorem trim_comp_of_bounds (p : Char → Bool) (l : List Char)
    (hh : ∀ a, l.head? = some a → p a = false)
    (hl : ∀ a, l.getLast? = some a → p a = false) :
    ((l.dropWhile p).reverse.dropWhile p).reverse = l := by
  rw [dropWhile_head_false p l hh]
  rw [dropWhile_head_false p l.reverse (fun a ha => hl a (by rwa [List.head?_reverse] at ha))]
  exact List.reverse_reverse l

theorem pyTrim_idem (l : List Char) : pyTrim (pyTrim l) = pyTrim l :=
  trim_comp_of_bounds isWS (pyTrim l) (trim_comp_head isWS l) (trim_comp_last isWS l)

theorem strip_fixed_idem (s : String) :
    pyLowerS (pyTrimS (pyLowerS (pyTrimS s))) = pyLowerS (pyTrimS s) := by
  apply String.ext
  rw [show (pyLowerS (pyTrimS (pyLowerS (pyTrimS s)))).data =
    (pyTrim ((pyTrim s.data).map lowChar)).map lowChar from rfl]
  rw [show (pyLowerS (pyTrimS s)).data = (pyTrim s.data).map lowChar from rfl]
  rw [pyTrim_map_lowChar, pyTrim_idem, List.map_map]
  apply List.map_congr_left
  intro a _
  show lowChar (lowChar a) = lowChar a
  exact lowChar_idem a

theorem normChar_of_alnum (c : Char) (h : isAlnum c = true) : normChar c = c := by
  rw [normChar, lowChar_of_alnum c h, if_pos h]

theorem map_normChar_id (l : List Char) (h : ∀ c ∈ l, isAlnum c = true ∨ c = '_') :
    l.map normChar = l := by
  induction l with
  | nil => rfl
  | cons a t ih =>
    rw [List.map_cons, ih (fun c hc => h c (List.mem_cons_of_mem a hc))]
    rcases h a (List.mem_cons_self a t) with ha | ha
    · rw [normChar_of_alnum a ha]
    · subst ha
      rfl

theorem squeezeU_of_noAdj (l : List Char) (h : noAdjU l = true) : squeezeU l = l := by
  induction l using squeezeU.induct with
  | case1 => rfl
  | case2 c => rfl
  | case3 a b rest hab ih =>
    exfalso
    rw [noAdjU, Bool.and_eq_true, Bool.not_eq_true'] at h
    rw [h.1] at hab
    cases hab
  | case4 a b rest hab ih =>
    rw [squeezeU, if_neg hab, ih (noAdjU_tail a _ h)]

theorem stripUnd_of_bounds (l : List Char) (hh : ¬ l.head? = some '_')
    (hl : ¬ l.getLast? = some '_') : stripUnd l = l := by
  apply trim_comp_of_bounds
  · intro a ha
    simp only [decide_eq_false_iff_not]
    intro hau
    subst hau
    exact hh ha
  · intro a ha
    simp only [decide_eq_false_iff_not]
    intro hau
    subst hau
    exact hl ha

theorem pyTrim_of_good (l : List Char) (h : ∀ c ∈ l, isAlnum c = true ∨ c = '_') :
    pyTrim l = l := by
  have hws : ∀ c ∈ l, isWS c = false := by
    intro c hc
    rcases h c hc with hc' | hc'
    · exact isWS_of_alnum c hc'
    · subst hc'
      rfl
  apply trim_comp_of_bounds
  · intro a ha
    cases l with
    | nil => cases ha
    | cons b t =>
      rw [List.head?_cons, Option.some_inj] at ha
      subst ha
      exact hws _ (List.mem_cons_self _ _)
  · intro a ha
    exact hws a (List.mem_of_mem_getLast? ha)

set_option maxHeartbeats 1000000 in
theorem normName_idem (s : String) : normName (normName s) = normName s := by
  have good1 : ∀ c ∈ (pyTrim s.data).map normChar, isAlnum c = true ∨ c = '_' := by
    intro c hc
    rw [List.mem_map] at hc
    obtain ⟨x, hx, rfl⟩ := hc
    exact normChar_good x
  have good2 : ∀ c ∈ squeezeU ((pyTrim s.data).map normChar), isAlnum c = true ∨ c = '_' :=
    fun c hc => good1 c (mem_squeezeU _ c hc)
  obtain ⟨good3, hadj3, hhd3, hlast3⟩ := stripUnd_props _ good2 (noAdjU_squeezeU _)
  apply String.ext
  rw [show (normName (normName s)).data =
    stripUnd (squeezeU ((pyTrim (normName s).data).map normChar)) from rfl]
  rw [show (normName s).data = stripUnd (squeezeU ((pyTrim s.data).map normChar)) from rfl]
  rw [pyTrim_of_good _ good3, map_normChar_id _ good3, squeezeU_of_noAdj _ hadj3,
    stripUnd_of_bounds _ hhd3 hlast3]

theorem digitVal_digitChar (d : ℕ) (h : d < 10) : digitVal (digitChar d) = d := by
  interval_cases d <;> rfl

theorem isDigit_digitChar (d : ℕ) (h : d < 10) : isDigit (digitChar d) = true := by
  interval_cases d <;> rfl

theorem isAlnum_of_isDigit (c : Char) (h : isDigit c = true) : isAlnum c = true := by
  rw [isAlnum, Bool.or_eq_true]
  exact Or.inr h

theorem isDigit_props (c : Char) (h : isDigit c = true) :
    ¬ c = '-' ∧ ¬ c = '+' ∧ ¬ c = '.' ∧ isWS c = false ∧ ¬ c = '%' := by
  refine ⟨?_, ?_, ?_, isWS_of_alnum c (isAlnum_of_isDigit c h), ?_⟩ <;>
    · intro h'
      subst h'
      exact absurd h (by decide)

theorem natDigs_digits (n : ℕ) : ∀ c ∈ natDigs n, isDigit c = true := by
  induction n using natDigs.induct with
  | case1 n h =>
    intro c hc
    rw [natDigs, dif_pos h] at hc
    rcases List.mem_singleton.mp hc with rfl
    exact isDigit_digitChar n h
  | case2 n h ih =>
    intro c hc
    rw [natDigs, dif_neg h] at hc
    rcases List.mem_append.mp hc with hc | hc
    · exact ih c hc
    · rcases List.mem_singleton.mp hc with rfl
      exact isDigit_digitChar _ (Nat.mod_lt n (by omega))

theorem natDigs_ne_nil (n : ℕ) : ¬ natDigs n = [] := by
  rw [natDigs]
  by_cases h : n < 10
  · rw [dif_pos h]
    simp
  · rw [dif_neg h]
    simp

theorem digitsVal_from (a : ℕ) (l : List Char) :
    l.foldl (fun acc c => 10 * acc + digitVal c) a = a * 10 ^ l.length + digitsVal l := by
  induction l generalizing a with
  | nil => simp [digitsVal]
  | cons c t ih =>
    rw [List.foldl_cons, ih]
    have h2 : digitsVal (c :: t) = (10 * 0 + digitVal c) * 10 ^ t.length + digitsVal t := by
      rw [show digitsVal (c :: t) =
        t.foldl (fun acc c => 10 * acc + digitVal c) (10 * 0 + digitVal c) from rfl, ih]
    rw [h2, List.length_cons]
    ring

theorem digitsVal_append (l1 l2 : List Char) :
    digitsVal (l1 ++ l2) = digitsVal l1 * 10 ^ l2.length + digitsVal l2 := by
  rw [digitsVal, List.foldl_append, ← digitsVal, digitsVal_from]

theorem digitsVal_natDigs (n : ℕ) : digitsVal (natDigs n) = n := by
  induction n using natDigs.induct with
  | case1 n h =>
    rw [natDigs, dif_pos h]
    rw [digitsVal, List.foldl_cons, List.foldl_nil]
    simp [digitVal_digitChar n h]
  | case2 n h ih =>
    rw [natDigs, dif_neg h, digitsVal_append, ih]
    rw [show digitsVal [digitChar (n % 10)] = digitVal (digitChar (n % 10)) by
      rw [digitsVal, List.foldl_cons, List.foldl_nil]; omega]
    rw [digitVal_digitChar _ (Nat.mod_lt n (by omega))]
    simp only [List.length_cons, List.length_nil, pow_one, zero_add]
    omega

theorem padDigs_length (k r : ℕ) : (padDigs k r).length = k := by
  induction k generalizing r with
  | zero => rfl
  | succ k ih =>
    rw [padDigs, List.length_append, ih]
    simp

theorem padDigs_digits (k r : ℕ) : ∀ c ∈ padDigs k r, isDigit c = true := by
  induction k generalizing r with
  | zero => intro c hc; cases hc
  | succ k ih =>
    intro c hc
    rw [padDigs] at hc
    rcases List.mem_append.mp hc with hc | hc
    · exact ih _ c hc
    · rcases List.mem_singleton.mp hc with rfl
      exact isDigit_digitChar _ (Nat.mod_lt r (by omega))

theorem digitsVal_padDigs (k r : ℕ) (h : r < 10 ^ k) : digitsVal (padDigs k r) = r := by
  induction k generalizing r with
  | zero =>
    rw [pow_zero] at h
    rw [show padDigs 0 r = [] from rfl, digitsVal, List.foldl_nil]
    omega
  | succ k ih =>
    rw [padDigs, digitsVal_append, ih (r / 10) (by rw [pow_succ] at h; omega)]
    rw [show digitsVal [digitChar (r % 10)] = digitVal (digitChar (r % 10)) by
      rw [digitsVal, List.foldl_cons, List.foldl_nil]; omega]
    rw [digitVal_digitChar _ (Nat.mod_lt r (by omega))]
    simp only [List.length_cons, List.length_nil, pow_one, zero_add]
    omega

theorem natDigs_head (n : ℕ) : ∃ d t, d < 10 ∧ natDigs n = digitChar d :: t := by
  induction n using natDigs.induct with
  | case1 n h =>
    rw [natDigs, dif_pos h]
    exact ⟨n, [], h, rfl⟩
  | case2 n h ih =>
    obtain ⟨d, t, hd, ht⟩ := ih
    rw [natDigs, dif_neg h, ht]
    exact ⟨d, t ++ [digitChar (n % 10)], hd, rfl⟩

theorem takeWhile_all (p : Char → Bool) (l : List Char) (h : ∀ c ∈ l, p c = true) :
    l.takeWhile p = l := by
  induction l with
  | nil => rfl
  | cons a t ih =>
    rw [List.takeWhile_cons, h a (List.mem_cons_self a t)]
    simp only [if_true]
    rw [ih (fun c hc => h c (List.mem_cons_of_mem a hc))]

theorem dropWhile_all (p : Char → Bool) (l : List Char) (h : ∀ c ∈ l, p c = true) :
    l.dropWhile p = [] :=
  List.dropWhile_eq_nil_iff.mpr h

theorem takeWhile_append_stop (p : Char → Bool) (l1 : List Char) (c0 : Char) (l2 : List Char)
    (h : ∀ c ∈ l1, p c = true) (h0 : p c0 = false) :
    (l1 ++ c0 :: l2).takeWhile p = l1 := by
  induction l1 with
  | nil =>
    rw [List.nil_append, List.takeWhile_cons, h0]
    rfl
  | cons a t ih =>
    rw [List.cons_append, List.takeWhile_cons, h a (List.mem_cons_self a t)]
    simp only [if_true]
    rw [ih (fun c hc => h c (List.mem_cons_of_mem a hc))]

theorem dropWhile_append_stop (p : Char → Bool) (l1 : List Char) (c0 : Char) (l2 : List Char)
    (h : ∀ c ∈ l1, p c = true) (h0 : p c0 = false) :
    (l1 ++ c0 :: l2).dropWhile p = c0 :: l2 := by
  induction l1 with
  | nil =>
    rw [List.nil_append, List.dropWhile_cons, h0]
    rfl
  | cons a t ih =>
    rw [List.cons_append, List.dropWhile_cons, h a (List.mem_cons_self a t)]
    simp only [if_true]
    exact ih (fun c hc => h c (List.mem_cons_of_mem a hc))

theorem parseNumList_digits (c : Char) (t : List Char)
    (hall : ∀ x ∈ c :: t, isDigit x = true) :
    parseNumList (c :: t) = some ((digitsVal (c :: t) : ℚ)) := by
  have hc := hall c (List.mem_cons_self c t)
  obtain ⟨hc1, hc2, _, _, _⟩ := isDigit_props c hc
  simp only [parseNumList]
  have hsgn : (match c :: t with | '-' :: _ => (-1 : ℚ) | _ => 1) = 1 := by
    split
    · next heq =>
      exfalso
      rw [List.cons.injEq] at heq
      exact hc1 heq.1
    · rfl
  have hl' : (match c :: t with | '-' :: r => r | '+' :: r => r | r => r) = c :: t := by
    split
    · next heq =>
      exfalso
      rw [List.cons.injEq] at heq
      exact hc1 heq.1
    · next heq =>
      exfalso
      rw [List.cons.injEq] at heq
      exact hc2 heq.1
    · rfl
  rw [hsgn, hl', takeWhile_all _ _ hall, dropWhile_all _ _ hall]
  simp

theorem parseNumList_dot (c : Char) (t fp : List Char)
    (hall : ∀ x ∈ c :: t, isDigit x = true) (hfp : ∀ x ∈ fp, isDigit x = true) :
    parseNumList ((c :: t) ++ '.' :: fp) =
      some ((digitsVal (c :: t) : ℚ) + (digitsVal fp : ℚ) / 10 ^ fp.length) := by
  have hc := hall c (List.mem_cons_self c t)
  obtain ⟨hc1, hc2, _, _, _⟩ := isDigit_props c hc
  rw [List.cons_append]
  simp only [parseNumList]
  have hsgn : (match c :: (t ++ '.' :: fp) with | '-' :: _ => (-1 : ℚ) | _ => 1) = 1 := by
    split
    · next heq =>
      exfalso
      rw [List.cons.injEq] at heq
      exact hc1 heq.1
    · rfl
  have hl' : (match c :: (t ++ '.' :: fp) with | '-' :: r => r | '+' :: r => r | r => r) =
      c :: (t ++ '.' :: fp) := by
    split
    · next heq =>
      exfalso
      rw [List.cons.injEq] at heq
      exact hc1 heq.1
    · next heq =>
      exfalso
      rw [List.cons.injEq] at heq
      exact hc2 heq.1
    · rfl
  rw [hsgn, hl', ← List.cons_append]
  rw [takeWhile_append_stop isDigit (c :: t) '.' fp hall rfl]
  rw [dropWhile_append_stop isDigit (c :: t) '.' fp hall rfl]
  simp [List.all_eq_true.mpr hfp]

theorem parseNumList_neg_digits (c : Char) (t : List Char)
    (hall : ∀ x ∈ c :: t, isDigit x = true) :
    parseNumList ('-' :: c :: t) = some (-(digitsVal (c :: t) : ℚ)) := by
  simp only [parseNumList]
  rw [takeWhile_all _ _ hall, dropWhile_all _ _ hall]
  simp

theorem parseNumList_neg_dot (c : Char) (t fp : List Char)
    (hall : ∀ x ∈ c :: t, isDigit x = true) (hfp : ∀ x ∈ fp, isDigit x = true) :
    parseNumList ('-' :: ((c :: t) ++ '.' :: fp)) =
      some (-((digitsVal (c :: t) : ℚ) + (digitsVal fp : ℚ) / 10 ^ fp.length)) := by
  simp only [parseNumList]
  rw [takeWhile_append_stop isDigit (c :: t) '.' fp hall rfl]
  rw [dropWhile_append_stop isDigit (c :: t) '.' fp hall rfl]
  simp [List.all_eq_true.mpr hfp]

theorem dvd_ten_pow_self (m : ℕ) : ∀ d, d ∣ 10 ^ m → d ∣ 10 ^ d := by
  intro d
  induction d using Nat.strong_induction_on with
  | _ d ih =>
    intro h
    rcases Nat.lt_or_ge d 2 with hd | hd
    · interval_cases d
      · rw [Nat.zero_dvd] at h
        exact absurd h (by positivity)
      · simp
    · have hp := Nat.minFac_prime (by omega : d ≠ 1)
      have hpd : d.minFac ∣ d := Nat.minFac_dvd d
      have hp10 : d.minFac ∣ 10 := hp.dvd_of_dvd_pow (hpd.trans h)
      have hd'lt : d / d.minFac < d := Nat.div_lt_self (by omega) hp.one_lt
      have hd'dvd : d / d.minFac ∣ d := Nat.div_dvd_of_dvd hpd
      have ih' := ih (d / d.minFac) hd'lt (hd'dvd.trans h)
      have hdm : d = d.minFac * (d / d.minFac) := (Nat.mul_div_cancel' hpd).symm
      have h10 : d ∣ 10 ^ (d / d.minFac + 1) := by
        rw [pow_succ, mul_comm (10 ^ (d / d.minFac)) 10]
        calc d = d.minFac * (d / d.minFac) := hdm
          _ ∣ 10 * 10 ^ (d / d.minFac) := Nat.mul_dvd_mul hp10 ih'
      refine h10.trans (pow_dvd_pow 10 ?_)
      have : 1 ≤ d / d.minFac := by
        rcases Nat.eq_zero_or_pos (d / d.minFac) with h0 | h0
        · rw [h0, mul_zero] at hdm
          omega
        · exact h0
      omega

theorem decExp_of_dvd (q : ℚ) (m : ℕ) (hm : q.den ∣ 10 ^ m) :
    ∃ k, decExp q = some k ∧ q.den ∣ 10 ^ k := by
  have hself : q.den ∣ 10 ^ q.den := dvd_ten_pow_self m q.den hm
  cases hfind : decExp q with
  | none =>
    exfalso
    rw [decExp] at hfind
    have := List.find?_eq_none.mp hfind q.den (List.mem_range.mpr (by omega))
    simp only [decide_eq_true_eq] at this
    exact this hself
  | some k =>
    refine ⟨k, rfl, ?_⟩
    rw [decExp] at hfind
    have := List.find?_some hfind
    simpa using this

theorem parse_numToStr (q : ℚ) (m : ℕ) (hm : q.den ∣ 10 ^ m) :
    parseNumList (numToStr q).data = some q := by
  obtain ⟨k, hk, hdvd⟩ := decExp_of_dvd q m hm
  rw [numToStr, hk]
  show parseNumList (numToStrCore q k) = some q
  have hden0 : ((q.den : ℚ)) ≠ 0 := by
    have : (0 : ℚ) < (q.den : ℚ) := by exact_mod_cast q.pos
    exact ne_of_gt this
  have hnum_eq : (q.num : ℚ) = q * (q.den : ℚ) := by
    have h := Rat.num_div_den q
    rwa [div_eq_iff hden0] at h
  have hNden : (q.den : ℕ) * (10 ^ k / q.den) = 10 ^ k := Nat.mul_div_cancel' hdvd
  have habs : ((q.num * ((10 ^ k / q.den : ℕ) : ℤ)).natAbs : ℚ) =
      (q.num.natAbs : ℚ) * ((10 ^ k / q.den : ℕ) : ℚ) := by
    rw [Int.natAbs_mul, Int.natAbs_ofNat, Nat.cast_mul]
  have hQ : ((10 ^ k / q.den : ℕ) : ℚ) * (q.den : ℚ) = ((10 : ℚ)) ^ k := by
    have h1 : (10 ^ k / q.den) * q.den = 10 ^ k := by rw [mul_comm]; exact hNden
    exact_mod_cast congrArg (fun n : ℕ => (n : ℚ)) h1
  have hvalq : ((q.num * ((10 ^ k / q.den : ℕ) : ℤ)).natAbs : ℚ) * (q.den : ℚ) =
      (q.num.natAbs : ℚ) * 10 ^ k := by
    rw [habs, mul_assoc, hQ]
  rw [numToStrCore]
  by_cases hk0 : k = 0
  · subst hk0
    rw [numToStrDigits, if_pos rfl]
    have hden1 : q.den = 1 := Nat.dvd_one.mp (by simpa using hdvd)
    have hA : (q.num * ((10 ^ 0 / q.den : ℕ) : ℤ)).natAbs = q.num.natAbs := by
      rw [hden1]
      simp
    rw [hA]
    have hq_int : (q.num : ℚ) = q := by
      rw [hnum_eq, hden1]
      norm_num
    obtain ⟨d, t, hd, hdt⟩ := natDigs_head q.num.natAbs
    by_cases hneg : q.num < 0
    · rw [if_pos hneg, hdt,
        parseNumList_neg_digits (digitChar d) t (by rw [← hdt]; exact natDigs_digits _), ← hdt,
        digitsVal_natDigs]
      congr 1
      have h2 : ((q.num.natAbs : ℕ) : ℚ) = -(q.num : ℚ) := by
        rw [Int.cast_natAbs, Int.cast_abs]
        exact abs_of_nonpos (show (q.num : ℚ) ≤ 0 by exact_mod_cast le_of_lt hneg)
      rw [h2, neg_neg, hq_int]
    · rw [if_neg hneg, hdt,
        parseNumList_digits (digitChar d) t (by rw [← hdt]; exact natDigs_digits _), ← hdt,
        digitsVal_natDigs]
      congr 1
      have h2 : ((q.num.natAbs : ℕ) : ℚ) = (q.num : ℚ) := by
        rw [Int.cast_natAbs, Int.cast_abs]
        exact abs_of_nonneg (show (0 : ℚ) ≤ (q.num : ℚ) by exact_mod_cast le_of_not_lt hneg)
      rw [h2, hq_int]
  · rw [numToStrDigits, if_neg hk0]
    have hsplit : (((q.num * ((10 ^ k / q.den : ℕ) : ℤ)).natAbs / 10 ^ k : ℕ) : ℚ) +
        (((q.num * ((10 ^ k / q.den : ℕ) : ℤ)).natAbs % 10 ^ k : ℕ) : ℚ) / 10 ^ k =
        ((q.num * ((10 ^ k / q.den : ℕ) : ℤ)).natAbs : ℚ) / 10 ^ k := by
      have h10 : ((10 : ℚ)) ^ k ≠ 0 := by positivity
      rw [eq_div_iff h10, add_mul, div_mul_cancel₀ _ h10]
      exact_mod_cast Nat.div_add_mod' ((q.num * ((10 ^ k / q.den : ℕ) : ℤ)).natAbs) (10 ^ k)
    have hval : ((q.num * ((10 ^ k / q.den : ℕ) : ℤ)).natAbs : ℚ) / 10 ^ k =
        (q.num.natAbs : ℚ) / (q.den : ℚ) := by
      rw [div_eq_div_iff (by positivity) hden0]
      exact hvalq
    obtain ⟨d, t, hd, hdt⟩ := natDigs_head ((q.num * ((10 ^ k / q.den : ℕ) : ℤ)).natAbs / 10 ^ k)
    rw [hdt]
    by_cases hneg : q.num < 0
    · rw [if_pos hneg]
      rw [parseNumList_neg_dot (digitChar d) t _ (by rw [← hdt]; exact natDigs_digits _) (padDigs_digits _ _)]
      rw [← hdt, digitsVal_natDigs, digitsVal_padDigs _ _
        (Nat.mod_lt _ (by positivity)), padDigs_length]
      congr 1
      rw [hsplit, hval]
      have h2 : ((q.num.natAbs : ℕ) : ℚ) = -(q.num : ℚ) := by
        rw [Int.cast_natAbs, Int.cast_abs]
        exact abs_of_nonpos (show (q.num : ℚ) ≤ 0 by exact_mod_cast le_of_lt hneg)
      rw [h2, hnum_eq]
      field_simp
    · rw [if_neg hneg]
      rw [parseNumList_dot (digitChar d) t _ (by rw [← hdt]; exact natDigs_digits _) (padDigs_digits _ _)]
      rw [← hdt, digitsVal_natDigs, digitsVal_padDigs _ _
        (Nat.mod_lt _ (by positivity)), padDigs_length]
      congr 1
      rw [hsplit, hval]
      have h2 : ((q.num.natAbs : ℕ) : ℚ) = (q.num : ℚ) := by
        rw [Int.cast_natAbs, Int.cast_abs]
        exact abs_of_nonneg (show (0 : ℚ) ≤ (q.num : ℚ) by exact_mod_cast le_of_not_lt hneg)
      rw [h2, hnum_eq]
      field_simp

theorem numToStrDigits_chars (q : ℚ) (k : ℕ) :
    ∀ c ∈ numToStrDigits q k, isDigit c = true ∨ c = '.' := by
  rw [numToStrDigits]
  by_cases hk0 : k = 0
  · rw [if_pos hk0]
    intro c hc
    exact Or.inl (natDigs_digits _ c hc)
  · rw [if_neg hk0]
    intro c hc
    rcases List.mem_append.mp hc with hc | hc
    · exact Or.inl (natDigs_digits _ c hc)
    · rcases List.mem_cons.mp hc with rfl | hc
      · exact Or.inr rfl
      · exact Or.inl (padDigs_digits _ _ c hc)

theorem numToStr_chars (q : ℚ) : ∀ c ∈ (numToStr q).data, isWS c = false ∧ ¬ c = '%' := by
  rw [numToStr]
  cases hk : decExp q with
  | none =>
    intro c hc
    rcases List.mem_singleton.mp hc with rfl
    exact ⟨rfl, by decide⟩
  | some k =>
    intro c hc
    have hc2 : c ∈ numToStrCore q k := hc
    rw [numToStrCore] at hc2
    have hdig : ∀ d, isDigit d = true ∨ d = '.' → isWS d = false ∧ ¬ d = '%' := by
      intro d hd
      rcases hd with hd | rfl
      · obtain ⟨_, _, _, h4, h5⟩ := isDigit_props d hd
        exact ⟨h4, h5⟩
      · exact ⟨rfl, by decide⟩
    by_cases hneg : q.num < 0
    · rw [if_pos hneg] at hc2
      rcases List.mem_cons.mp hc2 with rfl | hc2
      · exact ⟨rfl, by decide⟩
      · exact hdig c (numToStrDigits_chars q k c hc2)
    · rw [if_neg hneg] at hc2
      exact hdig c (numToStrDigits_chars q k c hc2)

theorem pyTrim_of_not_ws (l : List Char) (h : ∀ c ∈ l, isWS c = false) : pyTrim l = l := by
  apply trim_comp_of_bounds
  · intro a ha
    cases l with
    | nil => cases ha
    | cons b t =>
      rw [List.head?_cons, Option.some_inj] at ha
      subst ha
      exact h _ (List.mem_cons_self _ _)
  · intro a ha
    exact h a (List.mem_of_mem_getLast? ha)

theorem clvCell_num_of_dvd (q : ℚ) (m : ℕ) (hm : q.den ∣ 10 ^ m) :
    clvCell (Val.num q) = Val.num q := by
  rw [clvCell]
  rw [show pyStr (Val.num q) = numToStr q from rfl]
  rw [List.filter_eq_self.mpr (fun c hc => by
    simpa using ((numToStr_chars q) c hc).2)]
  rw [pyTrim_of_not_ws _ (fun c hc => ((numToStr_chars q) c hc).1)]
  rw [parse_numToStr q m hm]

theorem den_add_div_dvd (iv fv len : ℕ) :
    ((iv : ℚ) + (fv : ℚ) / 10 ^ len).den ∣ 10 ^ len := by
  have hx : ((iv : ℚ) + (fv : ℚ) / 10 ^ len) =
      Rat.divInt ((iv : ℤ) * 10 ^ len + (fv : ℤ)) ((10 : ℤ) ^ len) := by
    rw [Rat.divInt_eq_div]
    have h10 : ((10 : ℚ)) ^ len ≠ 0 := by positivity
    push_cast
    field_simp
  rw [hx]
  have hd := Rat.den_dvd ((iv : ℤ) * 10 ^ len + (fv : ℤ)) ((10 : ℤ) ^ len)
  have : ((10 : ℤ) ^ len) = (((10 ^ len : ℕ) : ℤ)) := by push_cast; ring
  rw [this] at hd
  exact_mod_cast hd

theorem parse_den_dvd (l : List Char) (q : ℚ) (h : parseNumList l = some q) :
    ∃ m, q.den ∣ 10 ^ m := by
  simp only [parseNumList] at h
  split at h
  · split at h
    · cases h
    · rw [Option.some_inj] at h
      subst h
      refine ⟨0, ?_⟩
      split
      · rw [neg_one_mul, Rat.neg_den]
        simp [Rat.den_natCast]
      · rw [one_mul]
        simp [Rat.den_natCast]
  · split at h
    · rw [Option.some_inj] at h
      subst h
      next fp _ _ =>
        refine ⟨fp.length, ?_⟩
        split
        · rw [neg_one_mul, Rat.neg_den]
          exact den_add_div_dvd _ _ _
        · rw [one_mul]
          exact den_add_div_dvd _ _ _
    · cases h
  · cases h

theorem map_id_of {α : Type} (f : α → α) (l : List α) (h : ∀ x ∈ l, f x = x) : l.map f = l := by
  induction l with
  | nil => rfl
  | cons a t ih =>
    rw [List.map_cons, h a (List.mem_cons_self a t), ih (fun x hx => h x (List.mem_cons_of_mem a hx))]

theorem mapM_option_none_iff {α β : Type} (f : α → Option β) (l : List α) :
    l.mapM f = none ↔ ∃ v ∈ l, f v = none := by
  induction l with
  | nil =>
    rw [List.mapM_nil]
    simp
  | cons a t ih =>
    rw [List.mapM_cons]
    constructor
    · intro h
      cases hfa : f a with
      | none => exact ⟨a, List.mem_cons_self a t, hfa⟩
      | some b =>
        rw [hfa] at h
        cases hrest : t.mapM f with
        | none =>
          obtain ⟨v, hv, hfv⟩ := ih.mp hrest
          exact ⟨v, List.mem_cons_of_mem a hv, hfv⟩
        | some bs =>
          rw [hrest] at h
          cases h
    · rintro ⟨v, hv, hfv⟩
      rcases List.mem_cons.mp hv with rfl | hv
      · rw [hfv]
        rfl
      · cases hfa : f a with
        | none => rfl
        | some b =>
          rw [ih.mpr ⟨v, hv, hfv⟩]
          rfl

theorem mapM_option_id {α : Type} (f : α → Option α) (l : List α)
    (h : ∀ x ∈ l, f x = some x) : l.mapM f = some l := by
  induction l with
  | nil => rfl
  | cons a t ih =>
    rw [List.mapM_cons, h a (List.mem_cons_self a t),
      ih (fun x hx => h x (List.mem_cons_of_mem a hx))]
    rfl

theorem mapM_except_id (f : Val → Except Unit Val) (l : List Val)
    (h : ∀ x ∈ l, f x = Except.ok x) : l.mapM f = Except.ok l := by
  induction l with
  | nil => rfl
  | cons a t ih =>
    rw [List.mapM_cons, h a (List.mem_cons_self a t),
      ih (fun x hx => h x (List.mem_cons_of_mem a hx))]
    rfl

theorem range_map_getD (cells : List Val) :
    (List.range cells.length).map (fun i => cells.getD i Val.na) = cells := by
  induction cells with
  | nil => rfl
  | cons c cs ih =>
    rw [List.length_cons, List.range_succ_eq_map, List.map_cons, List.map_map]
    congr 1

theorem filterRowsIdx_range (t : Table) (hlen : ∀ nc ∈ t, (nc.2).cells.length = nRows t) :
    filterRowsIdx t (List.range (nRows t)) = t := by
  apply map_id_of
  intro nc hnc
  have h1 := hlen nc hnc
  rw [show (List.range (nRows t)).map (fun i => cellAt nc.2 i) =
    (List.range nc.2.cells.length).map (fun i => nc.2.cells.getD i Val.na) by rw [h1]; rfl]
  rw [range_map_getD]

theorem clean_column_names_id (t : Table) (h : ∀ nc ∈ t, normName nc.1 = nc.1) :
    clean_column_names t = t := by
  apply map_id_of
  intro nc hnc
  rw [h nc hnc]

theorem rename_columns_id (t : Table) (h : ∀ nc ∈ t, ¬ nc.1 = "st") :
    rename_columns t = t := by
  apply map_id_of
  intro nc hnc
  rw [if_neg (h nc hnc)]

theorem getD_mem_of_lt (l : List Val) (i : ℕ) (h : i < l.length) : l.getD i Val.na ∈ l := by
  rw [List.getD_eq_getD_get?]
  cases hg : l.get? i with
  | none =>
    rw [List.get?_eq_none] at hg
    omega
  | some v =>
    simp only [Option.getD_some]
    exact List.get?_mem hg

theorem remove_empty_id (t : Table)
    (hlen : ∀ nc ∈ t, (nc.2).cells.length = nRows t)
    (hrows : t = [] ∨ 0 < nRows t)
    (hna : ∀ nc ∈ t, ∀ v ∈ (nc.2).cells, ¬ v = Val.na) :
    remove_empty_rows_columns t = t := by
  rcases hrows with rfl | hrows
  · rfl
  have hcols : ¬ t = [] := by
    intro h0
    rw [h0] at hrows
    simp [nRows] at hrows
  rw [remove_empty_rows_columns]
  have hkeep : (List.range (nRows t)).filter
      (fun i => (rowAt t i).any (fun v => !decide (v = Val.na))) = List.range (nRows t) := by
    apply List.filter_eq_self.mpr
    intro i hi
    rw [List.mem_range] at hi
    obtain ⟨nc0, rest, ht⟩ : ∃ nc0 rest, t = nc0 :: rest := by
      cases t with
      | nil => exact absurd rfl hcols
      | cons a b => exact ⟨a, b, rfl⟩
    have hmem0 : nc0 ∈ t := by rw [ht]; exact List.mem_cons_self _ _
    have hlen1 : nc0.2.cells.length = nRows t := hlen nc0 hmem0
    have hmemc : cellAt nc0.2 i ∈ nc0.2.cells := getD_mem_of_lt _ _ (by omega)
    rw [List.any_eq_true]
    refine ⟨cellAt nc0.2 i, ?_, ?_⟩
    · rw [rowAt]
      exact List.mem_map_of_mem _ hmem0
    · simp [hna nc0 hmem0 _ hmemc]
  rw [hkeep, filterRowsIdx_range t hlen]
  apply List.filter_eq_self.mpr
  intro nc hnc
  have h1 := hlen nc hnc
  cases hc : nc.2.cells with
  | nil =>
    rw [hc] at h1
    simp only [List.length_nil] at h1
    omega
  | cons v vs =>
    have hv : v ∈ nc.2.cells := by rw [hc]; exact List.mem_cons_self _ _
    simp [hna nc hnc v hv]


theorem remove_duplicates_id (t : Table)
    (hlen : ∀ nc ∈ t, (nc.2).cells.length = nRows t)
    (hnodup : (rowsOf t).Nodup) : remove_duplicates t = t := by
  rw [remove_duplicates]
  have hinj := List.inj_on_of_nodup_map hnodup
  have hkeep : (List.range (nRows t)).filter
      (fun i => !((List.range i).any (fun j => decide (rowAt t j = rowAt t i)))) =
      List.range (nRows t) := by
    apply List.filter_eq_self.mpr
    intro i hi
    rw [List.mem_range] at hi
    show (!((List.range i).any (fun j => decide (rowAt t j = rowAt t i)))) = true
    rw [Bool.not_eq_true']
    rw [List.any_eq_false]
    intro j hj
    rw [List.mem_range] at hj
    simp only [decide_eq_true_eq]
    intro heq
    have : j = i := hinj (List.mem_range.mpr (by omega)) (List.mem_range.mpr hi) heq
    omega
  rw [hkeep, filterRowsIdx_range t hlen]

theorem strip_text_columns_id (t : Table)
    (h : ∀ nc ∈ t, (nc.2).dtype = Dtype.object → ∀ v ∈ (nc.2).cells,
      ∃ e, v = Val.str e ∧ pyLowerS (pyTrimS e) = e) :
    strip_text_columns t = t := by
  apply map_id_of
  intro nc hnc
  by_cases hd : nc.2.dtype = Dtype.object
  · rw [if_pos hd]
    have hcells : nc.2.cells.map (fun v => Val.str (pyLowerS (pyTrimS (pyStr v)))) =
        nc.2.cells := by
      apply map_id_of
      intro v hv
      obtain ⟨e, rfl, he⟩ := h nc hnc hd v hv
      rw [show pyStr (Val.str e) = e from rfl, he]
    rw [hcells, ← hd]
  · rw [if_neg hd]

theorem mapColumn_id (name : String) (f : Val → Val) (t : Table)
    (h : ∀ nc ∈ t, nc.1 = name → ∀ v ∈ (nc.2).cells, f v = v) :
    mapColumn name f t = t := by
  apply map_id_of
  intro nc hnc
  by_cases hn : nc.1 = name
  · rw [if_pos hn, map_id_of f _ (h nc hnc hn)]
  · rw [if_neg hn]

theorem cap_ok_id (t : Table)
    (h : ∀ nc ∈ t, nc.1 = "monthly_premium_auto" → ∀ v ∈ (nc.2).cells,
      capCell v = Except.ok v) :
    cap_monthly_premium_auto t = Except.ok t := by
  rw [cap_monthly_premium_auto]
  induction t with
  | nil => rfl
  | cons nc rest ih =>
    rw [List.mapM_cons]
    have hnc : capEntry nc = Except.ok nc := by
      rw [capEntry]
      by_cases hn : nc.1 = "monthly_premium_auto"
      · rw [if_pos hn, mapM_except_id capCell _ (h nc (List.mem_cons_self _ _) hn)]
        rfl
      · rw [if_neg hn]
    rw [hnc, ih (fun nc2 hnc2 => h nc2 (List.mem_cons_of_mem nc hnc2))]
    rfl

theorem clv_id (t : Table)
    (h : ∀ nc ∈ t, nc.1 = "customer_lifetime_value" →
      (nc.2).dtype = Dtype.numeric ∧ ∀ v ∈ (nc.2).cells, clvCell v = v) :
    clean_customer_lifetime_value t = t := by
  apply map_id_of
  intro nc hnc
  by_cases hn : nc.1 = "customer_lifetime_value"
  · obtain ⟨hd, hc⟩ := h nc hnc hn
    rw [if_pos hn, map_id_of clvCell _ hc, ← hd]
  · rw [if_neg hn]

theorem convert_id (t : Table)
    (h : ∀ nc ∈ t, toNumericCol (nc.2) = nc.2 ∧
      ((nc.2).dtype = Dtype.object → toDatetimeCol (nc.2) = nc.2)) :
    convert_data_types t = t := by
  apply map_id_of
  intro nc hnc
  obtain ⟨h1, h2⟩ := h nc hnc
  show (nc.1, if (toNumericCol nc.2).dtype = Dtype.object then
      toDatetimeCol (toNumericCol nc.2) else toNumericCol nc.2) = nc
  rw [h1]
  by_cases hd : nc.2.dtype = Dtype.object
  · rw [if_pos hd, h2 hd]
  · rw [if_neg hd]

theorem handle_missing_id (t : Table)
    (h : ∀ nc ∈ t, ∀ v ∈ (nc.2).cells, ¬ v = Val.na) :
    handle_missing_values t = t := by
  apply map_id_of
  intro nc hnc
  have hcells : nc.2.cells.map (fun v => if v = Val.na then
      (if nc.2.dtype = Dtype.numeric then Val.num 0 else Val.str "unknown") else v) =
      nc.2.cells := by
    apply map_id_of
    intro v hv
    rw [if_neg (h nc hnc v hv)]
  rw [hcells]

/-! ### Claim C6: idempotence of the pipeline -/

theorem forall2_of_mapM_except {α β : Type} (f : α → Except Unit β) :
    ∀ (l : List α) (l' : List β), l.mapM f = Except.ok l' →
      List.Forall₂ (fun a b => f a = Except.ok b) l l' := by
  intro l
  induction l with
  | nil =>
    intro l' h
    rw [List.mapM_nil] at h
    cases h
    exact List.Forall₂.nil
  | cons a t ih =>
    intro l' h
    rw [List.mapM_cons] at h
    cases hfa : f a with
    | error e => rw [hfa] at h; cases h
    | ok b =>
      rw [hfa] at h
      cases hrest : t.mapM f with
      | error e => rw [hrest] at h; cases h
      | ok bs =>
        rw [hrest] at h
        cases h
        exact List.Forall₂.cons hfa (ih bs hrest)

theorem forall2_of_mapM_option {α β : Type} (f : α → Option β) :
    ∀ (l : List α) (l' : List β), l.mapM f = some l' →
      List.Forall₂ (fun a b => f a = some b) l l' := by
  intro l
  induction l with
  | nil =>
    intro l' h
    rw [List.mapM_nil] at h
    cases h
    exact List.Forall₂.nil
  | cons a t ih =>
    intro l' h
    rw [List.mapM_cons] at h
    cases hfa : f a with
    | none => rw [hfa] at h; cases h
    | some b =>
      rw [hfa] at h
      cases hrest : t.mapM f with
      | none => rw [hrest] at h; cases h
      | some bs =>
        rw [hrest] at h
        cases h
        exact List.Forall₂.cons hfa (ih bs hrest)

theorem forall2_mem_right {α β : Type} {R : α → β → Prop} {l : List α} {l' : List β}
    (h : List.Forall₂ R l l') : ∀ b ∈ l', ∃ a ∈ l, R a b := by
  induction h with
  | nil => intro b hb; cases hb
  | cons hr _ ih =>
    intro b hb
    rcases List.mem_cons.mp hb with rfl | hb
    · exact ⟨_, List.mem_cons_self _ _, hr⟩
    · obtain ⟨a, ha, hra⟩ := ih b hb
      exact ⟨a, List.mem_cons_of_mem _ ha, hra⟩

theorem cap_forall2 (t u : Table) (h : cap_monthly_premium_auto t = Except.ok u) :
    List.Forall₂ (fun a b => capEntry a = Except.ok b) t u :=
  forall2_of_mapM_except capEntry t u h

theorem capEntry_ok_cases (nc nc' : String × Col) (h : capEntry nc = Except.ok nc') :
    (¬ nc.1 = "monthly_premium_auto" ∧ nc' = nc) ∨
    (nc.1 = "monthly_premium_auto" ∧ nc'.1 = nc.1 ∧ (nc'.2).dtype = (nc.2).dtype ∧
      List.Forall₂ (fun a b => capCell a = Except.ok b) (nc.2).cells (nc'.2).cells) := by
  rw [capEntry] at h
  by_cases hn : nc.1 = "monthly_premium_auto"
  · rw [if_pos hn] at h
    right
    cases hm : (nc.2).cells.mapM capCell with
    | error e => rw [hm] at h; cases h
    | ok cs =>
      rw [hm] at h
      cases h
      exact ⟨hn, rfl, rfl, forall2_of_mapM_except capCell _ _ hm⟩
  · rw [if_neg hn] at h
    cases h
    exact Or.inl ⟨hn, rfl⟩

theorem capEntry_len (nc nc' : String × Col) (h : capEntry nc = Except.ok nc') :
    nc'.1 = nc.1 ∧ (nc'.2).dtype = (nc.2).dtype ∧ (nc'.2).cells.length = (nc.2).cells.length := by
  rcases capEntry_ok_cases nc nc' h with ⟨_, rfl⟩ | ⟨_, h1, h2, h3⟩
  · exact ⟨rfl, rfl, rfl⟩
  · exact ⟨h1, h2, h3.length_eq.symm⟩

theorem capCell_ok_idem (w v : Val) (h : capCell w = Except.ok v) : capCell v = Except.ok v := by
  cases w with
  | num q =>
    rw [capCell] at h
    by_cases hq : (1000 : ℚ) < q
    · rw [if_pos hq] at h
      cases h
      rw [capCell, if_neg (by norm_num)]
    · rw [if_neg hq] at h
      cases h
      rw [capCell, if_neg hq]
  | na =>
    rw [show capCell Val.na = Except.ok Val.na from rfl] at h
    cases h
    rfl
  | str s => rw [show capCell (Val.str s) = Except.error () from rfl] at h; cases h
  | dt n => rw [show capCell (Val.dt n) = Except.error () from rfl] at h; cases h

theorem capCell_ok_shape (w v : Val) (h : capCell w = Except.ok v) :
    (∃ q : ℚ, v = Val.num q) ∨ v = Val.na := by
  cases w with
  | num q =>
    rw [capCell] at h
    by_cases hq : (1000 : ℚ) < q
    · rw [if_pos hq] at h; cases h; exact Or.inl ⟨1000, rfl⟩
    · rw [if_neg hq] at h; cases h; exact Or.inl ⟨q, rfl⟩
  | na =>
    rw [show capCell Val.na = Except.ok Val.na from rfl] at h
    cases h
    exact Or.inr rfl
  | str s => rw [show capCell (Val.str s) = Except.error () from rfl] at h; cases h
  | dt n => rw [show capCell (Val.dt n) = Except.error () from rfl] at h; cases h

theorem toNumericCell_shape (w v : Val) (h : toNumericCell w = some v) :
    (∃ q : ℚ, v = Val.num q) ∨ v = Val.na := by
  cases w with
  | num q => cases h; exact Or.inl ⟨q, rfl⟩
  | na => cases h; exact Or.inr rfl
  | str s =>
    rw [toNumericCell] at h
    cases hp : parseNumList s.data with
    | none => rw [hp] at h; cases h
    | some q => rw [hp] at h; cases h; exact Or.inl ⟨q, rfl⟩
  | dt n => cases h

theorem toDatetimeCell_shape (w v : Val) (h : toDatetimeCell w = some v) :
    (∃ n : ℤ, v = Val.dt n) ∨ v = Val.na := by
  cases w with
  | num q => cases h
  | na => cases h; exact Or.inr rfl
  | str s =>
    rw [toDatetimeCell] at h
    cases hp : parseDateList s.data with
    | none => rw [hp] at h; cases h
    | some n => rw [hp] at h; cases h; exact Or.inl ⟨n, rfl⟩
  | dt n => cases h

theorem applyMap_str (m : List (String × String)) (s : String) :
    applyMap m (Val.str s) =
      match lookupMap m s with
      | some w => Val.str w
      | none => Val.str s := rfl

theorem lookupMap_mem :
    ∀ (m : List (String × String)) (s v : String), lookupMap m s = some v → ∃ k, (k, v) ∈ m := by
  intro m
  induction m with
  | nil => intro s v h; cases h
  | cons p rest ih =>
    intro s v h
    obtain ⟨k, w⟩ := p
    rw [lookupMap] at h
    by_cases hs : s = k
    · rw [if_pos hs] at h
      cases h
      exact ⟨k, List.mem_cons_self _ _⟩
    · rw [if_neg hs] at h
      obtain ⟨k', hk'⟩ := ih s v h
      exact ⟨k', List.mem_cons_of_mem _ hk'⟩

theorem applyMap_idem (m : List (String × String))
    (hm : ∀ p ∈ m, applyMap m (Val.str p.2) = Val.str p.2) (v : Val) :
    applyMap m (applyMap m v) = applyMap m v := by
  cases v with
  | str s =>
    rw [applyMap_str m s]
    cases hl : lookupMap m s with
    | none => rw [applyMap_str, hl]
    | some w =>
      obtain ⟨k, hk⟩ := lookupMap_mem m s w hl
      exact hm (k, w) hk
  | num q => rfl
  | na => rfl
  | dt n => rfl

theorem namesGood_base (t : Table) : namesGood (rename_columns (clean_column_names t)) := by
  intro nc hnc
  rw [rename_columns] at hnc
  obtain ⟨nc1, hnc1, rfl⟩ := List.mem_map.mp hnc
  rw [clean_column_names] at hnc1
  obtain ⟨nc0, hnc0, rfl⟩ := List.mem_map.mp hnc1
  constructor
  · show normName (if normName nc0.1 = "st" then "state" else normName nc0.1) =
      (if normName nc0.1 = "st" then "state" else normName nc0.1)
    by_cases hst : normName nc0.1 = "st"
    · rw [if_pos hst]; decide
    · rw [if_neg hst]; exact normName_idem nc0.1
  · show ¬ (if normName nc0.1 = "st" then "state" else normName nc0.1) = "st"
    by_cases hst : normName nc0.1 = "st"
    · rw [if_pos hst]; decide
    · rw [if_neg hst]; exact hst

theorem namesGood_sub (t u : Table) (hsub : ∀ nc ∈ u, ∃ nc0 ∈ t, nc.1 = nc0.1)
    (h : namesGood t) : namesGood u := by
  intro nc hnc
  obtain ⟨nc0, h0, he⟩ := hsub nc hnc
  rw [he]
  exact h nc0 h0

theorem names_sub_map (f : String × Col → String × Col) (t : Table)
    (hf : ∀ nc, (f nc).1 = nc.1) : ∀ nc ∈ t.map f, ∃ nc0 ∈ t, nc.1 = nc0.1 := by
  intro nc hnc
  obtain ⟨nc0, h0, rfl⟩ := List.mem_map.mp hnc
  exact ⟨nc0, h0, hf nc0⟩

theorem names_sub_filterRows (t : Table) (keep : List ℕ) :
    ∀ nc ∈ filterRowsIdx t keep, ∃ nc0 ∈ t, nc.1 = nc0.1 :=
  names_sub_map _ t (fun nc => rfl)

theorem names_sub_empty (t : Table) :
    ∀ nc ∈ remove_empty_rows_columns t, ∃ nc0 ∈ t, nc.1 = nc0.1 := by
  intro nc hnc
  have hnc' := List.mem_of_mem_filter hnc
  exact names_sub_filterRows t _ nc hnc'

theorem names_sub_dedup (t : Table) :
    ∀ nc ∈ remove_duplicates t, ∃ nc0 ∈ t, nc.1 = nc0.1 :=
  names_sub_map _ t (fun nc => rfl)

theorem names_sub_strip (t : Table) :
    ∀ nc ∈ strip_text_columns t, ∃ nc0 ∈ t, nc.1 = nc0.1 :=
  names_sub_map _ t (fun nc => by split <;> rfl)

theorem names_sub_mapColumn (name : String) (g : Val → Val) (t : Table) :
    ∀ nc ∈ mapColumn name g t, ∃ nc0 ∈ t, nc.1 = nc0.1 :=
  names_sub_map _ t (fun nc => by split <;> rfl)

theorem names_sub_clv (t : Table) :
    ∀ nc ∈ clean_customer_lifetime_value t, ∃ nc0 ∈ t, nc.1 = nc0.1 :=
  names_sub_map _ t (fun nc => by split <;> rfl)

theorem names_sub_convert (t : Table) :
    ∀ nc ∈ convert_data_types t, ∃ nc0 ∈ t, nc.1 = nc0.1 :=
  names_sub_map _ t (fun nc => rfl)

theorem names_sub_handle (t : Table) :
    ∀ nc ∈ handle_missing_values t, ∃ nc0 ∈ t, nc.1 = nc0.1 :=
  names_sub_map _ t (fun nc => rfl)

theorem names_sub_cap (t u : Table) (h : cap_monthly_premium_auto t = Except.ok u) :
    ∀ nc ∈ u, ∃ nc0 ∈ t, nc.1 = nc0.1 := by
  intro nc hnc
  obtain ⟨nc0, h0, hR⟩ := forall2_mem_right (cap_forall2 t u h) nc hnc
  exact ⟨nc0, h0, (capEntry_len nc0 nc hR).1⟩

theorem colsUniform_filterRowsIdx (t : Table) (keep : List ℕ) :
    colsUniform (filterRowsIdx t keep) := by
  intro nc hnc
  obtain ⟨nc0, h0, rfl⟩ := List.mem_map.mp hnc
  cases t with
  | nil => cases h0
  | cons a l =>
    show (keep.map (fun i => cellAt nc0.2 i)).length = nRows (filterRowsIdx (a :: l) keep)
    rw [show nRows (filterRowsIdx (a :: l) keep) = (keep.map (fun i => cellAt a.2 i)).length
      from rfl]
    rw [List.length_map, List.length_map]

theorem colsUniform_filter (u : Table) (p : String × Col → Bool) (h : colsUniform u) :
    colsUniform (u.filter p) := by
  intro nc hnc
  have hmem := List.mem_of_mem_filter hnc
  rw [h nc hmem]
  cases hf : u.filter p with
  | nil => rw [hf] at hnc; cases hnc
  | cons b l =>
    have hb : b ∈ u.filter p := by rw [hf]; exact List.mem_cons_self b l
    have hbu := h b (List.mem_of_mem_filter hb)
    show nRows u = b.2.cells.length
    exact hbu.symm

theorem colsUniform_empty (t : Table) : colsUniform (remove_empty_rows_columns t) :=
  colsUniform_filter _ _ (colsUniform_filterRowsIdx t _)

theorem posRows_empty (t : Table) : posRows (remove_empty_rows_columns t) := by
  cases he : remove_empty_rows_columns t with
  | nil => exact Or.inl rfl
  | cons b l =>
    right
    have hb : b ∈ remove_empty_rows_columns t := by rw [he]; exact List.mem_cons_self b l
    have hp := List.of_mem_filter hb
    rw [Bool.not_eq_true'] at hp
    have hex : ∃ v ∈ b.2.cells, ¬ (decide (v = Val.na)) = true := by
      by_contra hall
      push_neg at hall
      have : b.2.cells.all (fun v => decide (v = Val.na)) = true :=
        List.all_eq_true.mpr (fun v hv => hall v hv)
      rw [this] at hp
      cases hp
    obtain ⟨v, hv, _⟩ := hex
    have hne : ¬ b.2.cells = [] := by
      intro h0
      rw [h0] at hv
      cases hv
    show 0 < b.2.cells.length
    exact List.length_pos.mpr hne

theorem colsUniform_dedup (t : Table) : colsUniform (remove_duplicates t) :=
  colsUniform_filterRowsIdx t _

theorem posRows_dedup (t : Table) (h : posRows t) : posRows (remove_duplicates t) := by
  rcases h with rfl | h
  · exact Or.inl rfl
  right
  cases t with
  | nil => simp [nRows] at h
  | cons a l =>
    have h0 : 0 ∈ (List.range (nRows (a :: l))).filter
        (fun i => !((List.range i).any (fun j => decide (rowAt (a :: l) j = rowAt (a :: l) i)))) :=
      List.mem_filter.mpr ⟨List.mem_range.mpr h, rfl⟩
    show 0 < ((((List.range (nRows (a :: l))).filter
        (fun i => !((List.range i).any
          (fun j => decide (rowAt (a :: l) j = rowAt (a :: l) i))))).map
        (fun i => cellAt a.2 i)).length)
    rw [List.length_map]
    exact List.length_pos.mpr (List.ne_nil_of_mem h0)

theorem colsUniform_map (f : String × Col → String × Col) (t : Table)
    (hf : ∀ nc, ((f nc).2).cells.length = ((nc.2)).cells.length)
    (h : colsUniform t) : colsUniform (t.map f) := by
  intro nc hnc
  obtain ⟨nc0, h0, rfl⟩ := List.mem_map.mp hnc
  rw [hf nc0, nRows_map f hf t]
  exact h nc0 h0

theorem posRows_map (f : String × Col → String × Col) (t : Table)
    (hf : ∀ nc, ((f nc).2).cells.length = ((nc.2)).cells.length)
    (h : posRows t) : posRows (t.map f) := by
  rcases h with rfl | h
  · exact Or.inl rfl
  · right
    rw [nRows_map f hf t]
    exact h

theorem nRows_cap (t u : Table) (h : cap_monthly_premium_auto t = Except.ok u) :
    nRows u = nRows t := by
  cases cap_forall2 t u h with
  | nil => rfl
  | cons h1 h2 =>
    show _ = _
    exact (capEntry_len _ _ h1).2.2

theorem colsUniform_cap (t u : Table) (h : cap_monthly_premium_auto t = Except.ok u)
    (hu : colsUniform t) : colsUniform u := by
  intro nc hnc
  obtain ⟨nc0, h0, hR⟩ := forall2_mem_right (cap_forall2 t u h) nc hnc
  rw [(capEntry_len nc0 nc hR).2.2, nRows_cap t u h]
  exact hu nc0 h0

theorem posRows_cap (t u : Table) (h : cap_monthly_premium_auto t = Except.ok u)
    (hp : posRows t) : posRows u := by
  rcases hp with rfl | hp
  · rw [cap_monthly_premium_auto, List.mapM_nil] at h
    cases h
    exact Or.inl rfl
  · right
    rw [nRows_cap t u h]
    exact hp

theorem objStrip_strip (t : Table) : objStrip (strip_text_columns t) := by
  intro nc hnc hd v hv
  rw [strip_text_columns] at hnc
  obtain ⟨nc0, h0, rfl⟩ := List.mem_map.mp hnc
  by_cases h : (nc0.2).dtype = Dtype.object
  · rw [if_pos h] at hv
    obtain ⟨w, hw, rfl⟩ := List.mem_map.mp hv
    exact ⟨pyLowerS (pyTrimS (pyStr w)), rfl, strip_fixed_idem (pyStr w)⟩
  · rw [if_neg h] at hd
    exact absurd hd h

theorem objStrip_mapColumn (name : String) (m : List (String × String))
    (hm : ∀ p ∈ m, pyLowerS (pyTrimS p.2) = p.2) (t : Table) (h : objStrip t) :
    objStrip (mapColumn name (applyMap m) t) := by
  intro nc hnc hd v hv
  rw [mapColumn] at hnc
  obtain ⟨nc0, h0, rfl⟩ := List.mem_map.mp hnc
  by_cases hn : nc0.1 = name
  · rw [if_pos hn] at hv hd
    obtain ⟨w, hw, rfl⟩ := List.mem_map.mp hv
    obtain ⟨e, rfl, he⟩ := h nc0 h0 hd w hw
    cases hl : lookupMap m e with
    | none => exact ⟨e, by rw [applyMap_str, hl], he⟩
    | some w' =>
      obtain ⟨k, hk⟩ := lookupMap_mem m e w' hl
      exact ⟨w', by rw [applyMap_str, hl], hm (k, w') hk⟩
  · rw [if_neg hn] at hv hd
    exact h nc0 h0 hd v hv

theorem objStrip_cap (t u : Table) (hcap : cap_monthly_premium_auto t = Except.ok u)
    (h : objStrip t) : objStrip u := by
  intro nc hnc hd v hv
  obtain ⟨nc0, h0, hR⟩ := forall2_mem_right (cap_forall2 t u hcap) nc hnc
  rcases capEntry_ok_cases nc0 nc hR with ⟨_, rfl⟩ | ⟨hn, h1, h2, h3⟩
  · exact h _ h0 hd v hv
  · obtain ⟨w, hw, hcw⟩ := forall2_mem_right h3 v hv
    obtain ⟨e, rfl, he⟩ := h nc0 h0 (h2 ▸ hd) w hw
    rw [show capCell (Val.str e) = Except.error () from rfl] at hcw
    cases hcw

theorem objStrip_clv (t : Table) (h : objStrip t) :
    objStrip (clean_customer_lifetime_value t) := by
  intro nc hnc hd v hv
  rw [clean_customer_lifetime_value] at hnc
  obtain ⟨nc0, h0, rfl⟩ := List.mem_map.mp hnc
  by_cases hn : nc0.1 = "customer_lifetime_value"
  · rw [if_pos hn] at hd
    exact Dtype.noConfusion hd
  · rw [if_neg hn] at hd hv
    exact h nc0 h0 hd v hv

theorem objStrip_convert (t : Table) (h : objStrip t) :
    objStrip (convert_data_types t) := by
  intro nc hnc hd v hv
  rw [convert_data_types] at hnc
  obtain ⟨nc0, h0, rfl⟩ := List.mem_map.mp hnc
  have hd' : (if (toNumericCol nc0.2).dtype = Dtype.object then
      toDatetimeCol (toNumericCol nc0.2) else toNumericCol nc0.2).dtype = Dtype.object := hd
  have hv' : v ∈ (if (toNumericCol nc0.2).dtype = Dtype.object then
      toDatetimeCol (toNumericCol nc0.2) else toNumericCol nc0.2).cells := hv
  clear hd hv
  cases hdt0 : (nc0.2).dtype with
  | numeric =>
    rw [show toNumericCol nc0.2 = nc0.2 from by rw [toNumericCol, hdt0]] at hd' hv'
    rw [if_neg (by rw [hdt0]; intro hh; exact Dtype.noConfusion hh)] at hd' hv'
    rw [hdt0] at hd'
    exact Dtype.noConfusion hd'
  | datetime =>
    rw [show toNumericCol nc0.2 = Col.mk Dtype.numeric ((nc0.2).cells.map (fun w =>
        match w with
        | Val.dt n => Val.num (n : ℚ)
        | Val.na => Val.num (iNaT : ℚ)
        | x => x)) from by rw [toNumericCol, hdt0]] at hd' hv'
    rw [if_neg (fun hh => Dtype.noConfusion hh)] at hd' hv'
    exact Dtype.noConfusion hd'
  | object =>
    cases hmn : (nc0.2).cells.mapM toNumericCell with
    | some cs =>
      rw [show toNumericCol nc0.2 = Col.mk Dtype.numeric cs from by
        rw [toNumericCol, hdt0, hmn]] at hd' hv'
      rw [if_neg (fun hh => Dtype.noConfusion hh)] at hd' hv'
      exact Dtype.noConfusion hd'
    | none =>
      rw [show toNumericCol nc0.2 = nc0.2 from by rw [toNumericCol, hdt0, hmn]] at hd' hv'
      rw [if_pos hdt0] at hd' hv'
      cases hmd : (nc0.2).cells.mapM toDatetimeCell with
      | some cs =>
        rw [show toDatetimeCol nc0.2 = Col.mk Dtype.datetime cs from by
          rw [toDatetimeCol, hmd]] at hd'
        exact Dtype.noConfusion hd'
      | none =>
        rw [show toDatetimeCol nc0.2 = nc0.2 from by rw [toDatetimeCol, hmd]] at hd' hv'
        exact h nc0 h0 hd' v hv'

theorem objStrip_handle (t : Table) (h : objStrip t) :
    objStrip (handle_missing_values t) := by
  intro nc hnc hd v hv
  rw [handle_missing_values] at hnc
  obtain ⟨nc0, h0, rfl⟩ := List.mem_map.mp hnc
  obtain ⟨w, hw, rfl⟩ := List.mem_map.mp hv
  by_cases hna : w = Val.na
  · rw [if_pos hna]
    by_cases hdt : (nc0.2).dtype = Dtype.numeric
    · rw [if_pos hdt]
      rw [hdt] at hd
      exact Dtype.noConfusion hd
    · rw [if_neg hdt]
      exact ⟨"unknown", rfl, by decide⟩
  · rw [if_neg hna]
    exact h nc0 h0 hd _ hw

theorem colCellsP_mapColumnG (name : String) (P : Val → Prop) (name' : String)
    (g : Val → Val) (t : Table) (hg : name = name' → ∀ w, P (g w))
    (h : ¬ name = name' → colCellsP name P t) : colCellsP name P (mapColumn name' g t) := by
  intro nc hnc hname v hv
  rw [mapColumn] at hnc
  obtain ⟨nc0, h0, rfl⟩ := List.mem_map.mp hnc
  by_cases hn : nc0.1 = name'
  · rw [if_pos hn] at hname hv
    obtain ⟨w, hw, rfl⟩ := List.mem_map.mp hv
    exact hg (hname.symm.trans hn) w
  · rw [if_neg hn] at hname hv
    by_cases hne : name = name'
    · exact absurd (hname.trans hne) hn
    · exact h hne nc0 h0 hname v hv

theorem colCellsP_clvG (name : String) (P : Val → Prop) (t : Table)
    (hg : name = "customer_lifetime_value" → ∀ w, P (clvCell w))
    (h : ¬ name = "customer_lifetime_value" → colCellsP name P t) :
    colCellsP name P (clean_customer_lifetime_value t) := by
  intro nc hnc hname v hv
  rw [clean_customer_lifetime_value] at hnc
  obtain ⟨nc0, h0, rfl⟩ := List.mem_map.mp hnc
  by_cases hn : nc0.1 = "customer_lifetime_value"
  · rw [if_pos hn] at hname hv
    obtain ⟨w, hw, rfl⟩ := List.mem_map.mp hv
    exact hg (hname.symm.trans hn) w
  · rw [if_neg hn] at hname hv
    by_cases hne : name = "customer_lifetime_value"
    · exact absurd (hname.trans hne) hn
    · exact h hne nc0 h0 hname v hv

theorem colCellsP_cap (name : String) (P : Val → Prop) (t u : Table)
    (hcap : cap_monthly_premium_auto t = Except.ok u)
    (hstep : ∀ w v, P w → capCell w = Except.ok v → P v)
    (h : colCellsP name P t) : colCellsP name P u := by
  intro nc hnc hname v hv
  obtain ⟨nc0, h0, hR⟩ := forall2_mem_right (cap_forall2 t u hcap) nc hnc
  rcases capEntry_ok_cases nc0 nc hR with ⟨_, rfl⟩ | ⟨hn, h1, h2, h3⟩
  · exact h _ h0 hname v hv
  · obtain ⟨w, hw, hcw⟩ := forall2_mem_right h3 v hv
    exact hstep w v (h nc0 h0 (hname.symm.trans h1).symm w hw) hcw

theorem colCellsP_convert (name : String) (P : Val → Prop) (t : Table)
    (hstepN : ∀ w v, P w → toNumericCell w = some v → P v)
    (hstepD : ∀ w v, P w → toDatetimeCell w = some v → P v)
    (hdtc : ∀ n : ℤ, P (Val.dt n) → P (Val.num (n : ℚ)))
    (hnac : P Val.na → P (Val.num (iNaT : ℚ)))
    (h : colCellsP name P t) : colCellsP name P (convert_data_types t) := by
  intro nc hnc hname v hv
  rw [convert_data_types] at hnc
  obtain ⟨nc0, h0, rfl⟩ := List.mem_map.mp hnc
  have hname' : nc0.1 = name := hname
  have hv' : v ∈ (if (toNumericCol nc0.2).dtype = Dtype.object then
      toDatetimeCol (toNumericCol nc0.2) else toNumericCol nc0.2).cells := hv
  clear hv hname
  cases hdt0 : (nc0.2).dtype with
  | numeric =>
    rw [show toNumericCol nc0.2 = nc0.2 from by rw [toNumericCol, hdt0]] at hv'
    rw [if_neg (by rw [hdt0]; intro hh; exact Dtype.noConfusion hh)] at hv'
    exact h nc0 h0 hname' v hv'
  | datetime =>
    rw [show toNumericCol nc0.2 = Col.mk Dtype.numeric ((nc0.2).cells.map (fun w =>
        match w with
        | Val.dt n => Val.num (n : ℚ)
        | Val.na => Val.num (iNaT : ℚ)
        | x => x)) from by rw [toNumericCol, hdt0]] at hv'
    rw [if_neg (fun hh => Dtype.noConfusion hh)] at hv'
    obtain ⟨w, hw, rfl⟩ := List.mem_map.mp hv'
    cases w with
    | num q => exact h nc0 h0 hname' _ hw
    | str s => exact h nc0 h0 hname' _ hw
    | na => exact hnac (h nc0 h0 hname' _ hw)
    | dt n => exact hdtc n (h nc0 h0 hname' _ hw)
  | object =>
    cases hmn : (nc0.2).cells.mapM toNumericCell with
    | some cs =>
      rw [show toNumericCol nc0.2 = Col.mk Dtype.numeric cs from by
        rw [toNumericCol, hdt0, hmn]] at hv'
      rw [if_neg (fun hh => Dtype.noConfusion hh)] at hv'
      obtain ⟨w, hw, hsw⟩ := forall2_mem_right (forall2_of_mapM_option toNumericCell _ _ hmn) v hv'
      exact hstepN w v (h nc0 h0 hname' w hw) hsw
    | none =>
      rw [show toNumericCol nc0.2 = nc0.2 from by rw [toNumericCol, hdt0, hmn]] at hv'
      rw [if_pos hdt0] at hv'
      cases hmd : (nc0.2).cells.mapM toDatetimeCell with
      | some cs =>
        rw [show toDatetimeCol nc0.2 = Col.mk Dtype.datetime cs from by
          rw [toDatetimeCol, hmd]] at hv'
        obtain ⟨w, hw, hsw⟩ :=
          forall2_mem_right (forall2_of_mapM_option toDatetimeCell _ _ hmd) v hv'
        exact hstepD w v (h nc0 h0 hname' w hw) hsw
      | none =>
        rw [show toDatetimeCol nc0.2 = nc0.2 from by rw [toDatetimeCol, hmd]] at hv'
        exact h nc0 h0 hname' v hv'

theorem colCellsP_handle (name : String) (P : Val → Prop) (t : Table)
    (hzero : P (Val.num 0)) (hunk : P (Val.str "unknown"))
    (h : colCellsP name P t) : colCellsP name P (handle_missing_values t) := by
  intro nc hnc hname v hv
  rw [handle_missing_values] at hnc
  obtain ⟨nc0, h0, rfl⟩ := List.mem_map.mp hnc
  obtain ⟨w, hw, rfl⟩ := List.mem_map.mp hv
  by_cases hna : w = Val.na
  · rw [if_pos hna]
    by_cases hdt : (nc0.2).dtype = Dtype.numeric
    · rw [if_pos hdt]; exact hzero
    · rw [if_neg hdt]; exact hunk
  · rw [if_neg hna]
    exact h nc0 h0 hname w hw

theorem colNumeric_clvStage (t : Table) :
    colNumeric "customer_lifetime_value" (clean_customer_lifetime_value t) := by
  intro nc hnc hname
  rw [clean_customer_lifetime_value] at hnc
  obtain ⟨nc0, h0, rfl⟩ := List.mem_map.mp hnc
  by_cases hn : nc0.1 = "customer_lifetime_value"
  · rw [if_pos hn]
  · rw [if_neg hn] at hname
    exact absurd hname hn

theorem colNumeric_convert (name : String) (t : Table) (h : colNumeric name t) :
    colNumeric name (convert_data_types t) := by
  intro nc hnc hname
  rw [convert_data_types] at hnc
  obtain ⟨nc0, h0, rfl⟩ := List.mem_map.mp hnc
  have hname' : nc0.1 = name := hname
  have hdt0 := h nc0 h0 hname'
  show (if (toNumericCol nc0.2).dtype = Dtype.object then
      toDatetimeCol (toNumericCol nc0.2) else toNumericCol nc0.2).dtype = Dtype.numeric
  rw [show toNumericCol nc0.2 = nc0.2 from by rw [toNumericCol, hdt0]]
  rw [if_neg (by rw [hdt0]; intro hh; exact Dtype.noConfusion hh)]
  exact hdt0

theorem colCellsP_convert_numeric (name : String) (P : Val → Prop) (t : Table)
    (hnum : colNumeric name t) (h : colCellsP name P t) :
    colCellsP name P (convert_data_types t) := by
  intro nc hnc hname v hv
  rw [convert_data_types] at hnc
  obtain ⟨nc0, h0, rfl⟩ := List.mem_map.mp hnc
  have hname' : nc0.1 = name := hname
  have hdt0 := hnum nc0 h0 hname'
  have hv' : v ∈ (if (toNumericCol nc0.2).dtype = Dtype.object then
      toDatetimeCol (toNumericCol nc0.2) else toNumericCol nc0.2).cells := hv
  rw [show toNumericCol nc0.2 = nc0.2 from by rw [toNumericCol, hdt0]] at hv'
  rw [if_neg (by rw [hdt0]; intro hh; exact Dtype.noConfusion hh)] at hv'
  exact h nc0 h0 hname' v hv'

theorem colNumeric_handle (name : String) (t : Table) (h : colNumeric name t) :
    colNumeric name (handle_missing_values t) := by
  intro nc hnc hname
  rw [handle_missing_values] at hnc
  obtain ⟨nc0, h0, rfl⟩ := List.mem_map.mp hnc
  exact h nc0 h0 hname

theorem colCellsP_handle_numeric (name : String) (P : Val → Prop) (t : Table)
    (hnum : colNumeric name t) (hzero : P (Val.num 0))
    (h : colCellsP name P t) : colCellsP name P (handle_missing_values t) := by
  intro nc hnc hname v hv
  rw [handle_missing_values] at hnc
  obtain ⟨nc0, h0, rfl⟩ := List.mem_map.mp hnc
  obtain ⟨w, hw, rfl⟩ := List.mem_map.mp hv
  have hdt0 := hnum nc0 h0 hname
  by_cases hna : w = Val.na
  · rw [if_pos hna, if_pos hdt0]
    exact hzero
  · rw [if_neg hna]
    exact h nc0 h0 hname w hw

theorem capFixed_cap (t u : Table) (hcap : cap_monthly_premium_auto t = Except.ok u) :
    colCellsP "monthly_premium_auto" (fun v => capCell v = Except.ok v) u := by
  intro nc hnc hname v hv
  obtain ⟨nc0, h0, hR⟩ := forall2_mem_right (cap_forall2 t u hcap) nc hnc
  rcases capEntry_ok_cases nc0 nc hR with ⟨hn0, rfl⟩ | ⟨hn, h1, h2, h3⟩
  · exact absurd hname hn0
  · obtain ⟨w, hw, hcw⟩ := forall2_mem_right h3 v hv
    exact capCell_ok_idem w v hcw

theorem toNumericCell_fix (v : Val) (h : (∃ q : ℚ, v = Val.num q) ∨ v = Val.na) :
    toNumericCell v = some v := by
  rcases h with ⟨q, rfl⟩ | rfl <;> rfl

theorem capInv_convert (t : Table)
    (h : colCellsP "monthly_premium_auto" (fun v => capCell v = Except.ok v) t) :
    colCellsP "monthly_premium_auto" (fun v => capCell v = Except.ok v) (convert_data_types t) ∧
    colNumeric "monthly_premium_auto" (convert_data_types t) := by
  constructor
  · apply colCellsP_convert "monthly_premium_auto" (fun v => capCell v = Except.ok v) t
    · intro w v hw hsw
      rcases toNumericCell_shape w v hsw with ⟨q, rfl⟩ | rfl
      · have := toNumericCell_fix w ((capCell_ok_shape w w hw).imp id id)
        rw [this] at hsw
        cases hsw
        exact hw
      · rfl
    · intro w v hw hsw
      rcases capCell_ok_shape w w hw with ⟨q, hq⟩ | hq <;> rw [hq] at hsw <;> cases hsw
      rfl
    · intro n hn
      rw [show capCell (Val.dt n) = Except.error () from rfl] at hn
      cases hn
    · intro _
      rw [capCell, if_neg (by rw [iNaT]; norm_num)]
    · exact h
  · intro nc hnc hname
    rw [convert_data_types] at hnc
    obtain ⟨nc0, h0, rfl⟩ := List.mem_map.mp hnc
    have hname' : nc0.1 = "monthly_premium_auto" := hname
    have hcells := h nc0 h0 hname'
    show (if (toNumericCol nc0.2).dtype = Dtype.object then
        toDatetimeCol (toNumericCol nc0.2) else toNumericCol nc0.2).dtype = Dtype.numeric
    cases hdt0 : (nc0.2).dtype with
    | numeric =>
      rw [show toNumericCol nc0.2 = nc0.2 from by rw [toNumericCol, hdt0]]
      rw [if_neg (by rw [hdt0]; intro hh; exact Dtype.noConfusion hh)]
      exact hdt0
    | datetime =>
      rw [show toNumericCol nc0.2 = Col.mk Dtype.numeric ((nc0.2).cells.map (fun w =>
          match w with
          | Val.dt n => Val.num (n : ℚ)
          | Val.na => Val.num (iNaT : ℚ)
          | x => x)) from by rw [toNumericCol, hdt0]]
      rw [if_neg (fun hh => Dtype.noConfusion hh)]
    | object =>
      have hmn : (nc0.2).cells.mapM toNumericCell = some (nc0.2).cells :=
        mapM_option_id toNumericCell _ (fun w hw =>
          toNumericCell_fix w ((capCell_ok_shape w w (hcells w hw)).imp id id))
      rw [show toNumericCol nc0.2 = Col.mk Dtype.numeric (nc0.2).cells from by
        rw [toNumericCol, hdt0, hmn]]
      rw [if_neg (fun hh => Dtype.noConfusion hh)]

theorem clvCell_na_eq : clvCell Val.na = Val.na := by rfl

theorem clvCell_idem (w : Val) : clvCell (clvCell w) = clvCell w := by
  cases hp : parseNumList (pyTrim ((pyStr w).data.filter (fun c => !decide (c = '%')))) with
  | none =>
    have h1 : clvCell w = Val.na := by rw [clvCell, hp]
    rw [h1]
    exact clvCell_na_eq
  | some q =>
    have h1 : clvCell w = Val.num q := by rw [clvCell, hp]
    rw [h1]
    obtain ⟨m, hm⟩ := parse_den_dvd _ q hp
    exact clvCell_num_of_dvd q m hm

theorem handle_no_na (t : Table) :
    ∀ nc ∈ handle_missing_values t, ∀ v ∈ (nc.2).cells, ¬ v = Val.na := by
  intro nc hnc v hv
  rw [handle_missing_values] at hnc
  obtain ⟨nc0, h0, rfl⟩ := List.mem_map.mp hnc
  obtain ⟨w, hw, rfl⟩ := List.mem_map.mp hv
  by_cases hna : w = Val.na
  · rw [if_pos hna]
    by_cases hdt : (nc0.2).dtype = Dtype.numeric
    · rw [if_pos hdt]
      intro hh
      cases hh
    · rw [if_neg hdt]
      intro hh
      cases hh
  · rw [if_neg hna]
    exact hna

theorem toNumericCol_len (c : Col) : (toNumericCol c).cells.length = c.cells.length := by
  rw [toNumericCol]
  cases c.dtype with
  | numeric => rfl
  | datetime => simp
  | object =>
    cases hm : c.cells.mapM toNumericCell with
    | none => rfl
    | some cs =>
      show cs.length = c.cells.length
      exact mapM_option_length toNumericCell _ _ hm

theorem toDatetimeCol_len (c : Col) : (toDatetimeCol c).cells.length = c.cells.length := by
  rw [toDatetimeCol]
  cases hm : c.cells.mapM toDatetimeCell with
  | none => rfl
  | some cs =>
    show cs.length = c.cells.length
    exact mapM_option_length toDatetimeCell _ _ hm

theorem convert_entry_cases (c : Col) :
    (∃ cs, (if (toNumericCol c).dtype = Dtype.object then toDatetimeCol (toNumericCol c)
      else toNumericCol c) = Col.mk Dtype.numeric cs) ∨
    (∃ cs, (if (toNumericCol c).dtype = Dtype.object then toDatetimeCol (toNumericCol c)
      else toNumericCol c) = Col.mk Dtype.datetime cs) ∨
    ((if (toNumericCol c).dtype = Dtype.object then toDatetimeCol (toNumericCol c)
      else toNumericCol c) = c ∧ c.dtype = Dtype.object ∧
      c.cells.mapM toNumericCell = none ∧ c.cells.mapM toDatetimeCell = none) := by
  cases hdt0 : c.dtype with
  | numeric =>
    left
    refine ⟨c.cells, ?_⟩
    rw [show toNumericCol c = c from by rw [toNumericCol, hdt0]]
    rw [if_neg (by rw [hdt0]; intro hh; exact Dtype.noConfusion hh)]
    rw [← hdt0]
  | datetime =>
    left
    refine ⟨c.cells.map (fun w =>
      match w with
      | Val.dt n => Val.num (n : ℚ)
      | Val.na => Val.num (iNaT : ℚ)
      | x => x), ?_⟩
    rw [show toNumericCol c = Col.mk Dtype.numeric (c.cells.map (fun w =>
        match w with
        | Val.dt n => Val.num (n : ℚ)
        | Val.na => Val.num (iNaT : ℚ)
        | x => x)) from by rw [toNumericCol, hdt0]]
    rw [if_neg (fun hh => Dtype.noConfusion hh)]
  | object =>
    cases hmn : c.cells.mapM toNumericCell with
    | some cs =>
      left
      refine ⟨cs, ?_⟩
      rw [show toNumericCol c = Col.mk Dtype.numeric cs from by rw [toNumericCol, hdt0, hmn]]
      rw [if_neg (fun hh => Dtype.noConfusion hh)]
    | none =>
      have hc : toNumericCol c = c := by rw [toNumericCol, hdt0, hmn]
      cases hmd : c.cells.mapM toDatetimeCell with
      | some cs =>
        right
        left
        refine ⟨cs, ?_⟩
        rw [hc, if_pos hdt0, toDatetimeCol, hmd]
      | none =>
        right
        right
        refine ⟨?_, rfl, rfl, rfl⟩
        rw [hc, if_pos hdt0, toDatetimeCol, hmd]

theorem handle_object_fix (c : Col) (hobj : c.dtype = Dtype.object)
    (hmn : c.cells.mapM toNumericCell = none) (hmd : c.cells.mapM toDatetimeCell = none) :
    toNumericCol (Col.mk c.dtype (c.cells.map (fun v => if v = Val.na then
      (if c.dtype = Dtype.numeric then Val.num 0 else Val.str "unknown") else v))) =
      Col.mk c.dtype (c.cells.map (fun v => if v = Val.na then
      (if c.dtype = Dtype.numeric then Val.num 0 else Val.str "unknown") else v)) ∧
    toDatetimeCol (Col.mk c.dtype (c.cells.map (fun v => if v = Val.na then
      (if c.dtype = Dtype.numeric then Val.num 0 else Val.str "unknown") else v))) =
      Col.mk c.dtype (c.cells.map (fun v => if v = Val.na then
      (if c.dtype = Dtype.numeric then Val.num 0 else Val.str "unknown") else v)) := by
  rw [hobj]
  obtain ⟨w0, hw0, hf0⟩ := (mapM_option_none_iff toNumericCell c.cells).mp hmn
  obtain ⟨w1, hw1, hf1⟩ := (mapM_option_none_iff toDatetimeCell c.cells).mp hmd
  have hne0 : ¬ w0 = Val.na := by
    intro hh
    rw [hh] at hf0
    cases hf0
  have hne1 : ¬ w1 = Val.na := by
    intro hh
    rw [hh] at hf1
    cases hf1
  have hL0 : (c.cells.map (fun v => if v = Val.na then
      (if Dtype.object = Dtype.numeric then Val.num 0 else Val.str "unknown") else v)).mapM
      toNumericCell = none :=
    (mapM_option_none_iff toNumericCell _).mpr
      ⟨w0, List.mem_map.mpr ⟨w0, hw0, by rw [if_neg hne0]⟩, hf0⟩
  have hL1 : (c.cells.map (fun v => if v = Val.na then
      (if Dtype.object = Dtype.numeric then Val.num 0 else Val.str "unknown") else v)).mapM
      toDatetimeCell = none :=
    (mapM_option_none_iff toDatetimeCell _).mpr
      ⟨w1, List.mem_map.mpr ⟨w1, hw1, by rw [if_neg hne1]⟩, hf1⟩
  constructor
  · rw [toNumericCol]
    simp only [hL0]
  · rw [toDatetimeCol]
    simp only [hL1]

theorem convert_handle_fix (w : Table) :
    ∀ nc ∈ handle_missing_values (convert_data_types w), ¬ (nc.2).dtype = Dtype.datetime →
      toNumericCol nc.2 = nc.2 ∧ ((nc.2).dtype = Dtype.object → toDatetimeCol nc.2 = nc.2) := by
  intro nc hnc hdt
  rw [handle_missing_values] at hnc
  obtain ⟨nc1, h1, rfl⟩ := List.mem_map.mp hnc
  rw [convert_data_types] at h1
  obtain ⟨nc0, h0, heq⟩ := List.mem_map.mp h1
  have h2 : nc1.2 = (if (toNumericCol nc0.2).dtype = Dtype.object then
      toDatetimeCol (toNumericCol nc0.2) else toNumericCol nc0.2) := by rw [← heq]
  rcases convert_entry_cases nc0.2 with ⟨cs, hcs⟩ | ⟨cs, hcs⟩ | ⟨hcs, hobj, hmn, hmd⟩
  · rw [hcs] at h2
    rw [h2] at hdt ⊢
    constructor
    · rfl
    · intro hh
      exact absurd hh (fun hh2 => Dtype.noConfusion hh2)
  · rw [hcs] at h2
    rw [h2] at hdt
    exact absurd rfl hdt
  · rw [hcs] at h2
    rw [h2]
    exact ⟨(handle_object_fix nc0.2 hobj hmn hmd).1, fun _ =>
      (handle_object_fix nc0.2 hobj hmn hmd).2⟩

theorem pipeline_decomp (T U : Table) (h : clean_data T = Except.ok U) :
    ∃ t9, cap_monthly_premium_auto (clean_state_names (clean_education (clean_gender
      (strip_text_columns (remove_duplicates (remove_empty_rows_columns
      (rename_columns (clean_column_names T)))))))) = Except.ok t9 ∧
      U = handle_missing_values (convert_data_types (clean_customer_lifetime_value
        (clean_policy_type t9))) := by
  rw [clean_data] at h
  cases hc : cap_monthly_premium_auto (clean_state_names (clean_education (clean_gender
      (strip_text_columns (remove_duplicates (remove_empty_rows_columns
      (rename_columns (clean_column_names T)))))))) with
  | error e =>
    rw [hc] at h
    cases h
  | ok t9 =>
    rw [hc] at h
    simp only [except_bind_ok] at h
    cases h
    exact ⟨t9, rfl, rfl⟩

theorem applyMap_shape_num (m : List (String × String)) (v : Val)
    (h : (∃ q : ℚ, v = Val.num q) ∨ v = Val.na) : applyMap m v = v := by
  rcases h with ⟨q, rfl⟩ | rfl <;> rfl

theorem applyMap_shape_dt (m : List (String × String)) (v : Val)
    (h : (∃ n : ℤ, v = Val.dt n) ∨ v = Val.na) : applyMap m v = v := by
  rcases h with ⟨n, rfl⟩ | rfl <;> rfl

theorem clean_data_inv (T U : Table) (h : clean_data T = Except.ok U) :
    namesGood U ∧ colsUniform U ∧ posRows U ∧
    (∀ nc ∈ U, ∀ v ∈ (nc.2).cells, ¬ v = Val.na) ∧
    objStrip U ∧
    colCellsP "gender" (fun v => applyMap genderMap v = v) U ∧
    colCellsP "education" (fun v => applyMap educationMap v = v) U ∧
    colCellsP "state" (fun v => applyMap stateMap v = v) U ∧
    colCellsP "policy_type" (fun v => applyMap policyMap v = v) U ∧
    colCellsP "monthly_premium_auto" (fun v => capCell v = Except.ok v) U ∧
    colNumeric "customer_lifetime_value" U ∧
    colCellsP "customer_lifetime_value" (fun v => clvCell v = v) U ∧
    (∀ nc ∈ U, ¬ (nc.2).dtype = Dtype.datetime →
      toNumericCol nc.2 = nc.2 ∧ ((nc.2).dtype = Dtype.object → toDatetimeCol nc.2 = nc.2)) := by
  obtain ⟨t9, hcap, rfl⟩ := pipeline_decomp T U h
  set t2 := rename_columns (clean_column_names T) with ht2
  set t3 := remove_empty_rows_columns t2 with ht3
  set t4 := remove_duplicates t3 with ht4
  set t5 := strip_text_columns t4 with ht5
  set t6 := clean_gender t5 with ht6
  set t7 := clean_education t6 with ht7
  set t8 := clean_state_names t7 with ht8
  set t10 := clean_policy_type t9 with ht10
  set t11 := clean_customer_lifetime_value t10 with ht11
  set t12 := convert_data_types t11 with ht12
  have hN2 : namesGood t2 := namesGood_base T
  have hN3 : namesGood t3 := namesGood_sub _ _ (names_sub_empty _) hN2
  have hN4 : namesGood t4 := namesGood_sub _ _ (names_sub_dedup _) hN3
  have hN5 : namesGood t5 := namesGood_sub _ _ (names_sub_strip _) hN4
  have hN6 : namesGood t6 := namesGood_sub _ _ (names_sub_mapColumn _ _ _) hN5
  have hN7 : namesGood t7 := namesGood_sub _ _ (names_sub_mapColumn _ _ _) hN6
  have hN8 : namesGood t8 := namesGood_sub _ _ (names_sub_mapColumn _ _ _) hN7
  have hN9 : namesGood t9 := namesGood_sub _ _ (names_sub_cap _ _ hcap) hN8
  have hN10 : namesGood t10 := namesGood_sub _ _ (names_sub_mapColumn _ _ _) hN9
  have hN11 : namesGood t11 := namesGood_sub _ _ (names_sub_clv _) hN10
  have hN12 : namesGood t12 := namesGood_sub _ _ (names_sub_convert _) hN11
  have hN13 : namesGood (handle_missing_values t12) :=
    namesGood_sub _ _ (names_sub_handle _) hN12
  have hU3 : colsUniform t3 := colsUniform_empty t2
  have hP3 : posRows t3 := posRows_empty t2
  have hU4 : colsUniform t4 := colsUniform_dedup t3
  have hP4 : posRows t4 := posRows_dedup t3 hP3
  have hU5 : colsUniform t5 := colsUniform_map _ t4 (fun nc => by split <;> simp) hU4
  have hP5 : posRows t5 := posRows_map _ t4 (fun nc => by split <;> simp) hP4
  have hU6 : colsUniform t6 := colsUniform_map _ t5 (fun nc => by split <;> simp) hU5
  have hP6 : posRows t6 := posRows_map _ t5 (fun nc => by split <;> simp) hP5
  have hU7 : colsUniform t7 := colsUniform_map _ t6 (fun nc => by split <;> simp) hU6
  have hP7 : posRows t7 := posRows_map _ t6 (fun nc => by split <;> simp) hP6
  have hU8 : colsUniform t8 := colsUniform_map _ t7 (fun nc => by split <;> simp) hU7
  have hP8 : posRows t8 := posRows_map _ t7 (fun nc => by split <;> simp) hP7
  have hU9 : colsUniform t9 := colsUniform_cap t8 t9 hcap hU8
  have hP9 : posRows t9 := posRows_cap t8 t9 hcap hP8
  have hU10 : colsUniform t10 := colsUniform_map _ t9 (fun nc => by split <;> simp) hU9
  have hP10 : posRows t10 := posRows_map _ t9 (fun nc => by split <;> simp) hP9
  have hU11 : colsUniform t11 := colsUniform_map _ t10 (fun nc => by split <;> simp) hU10
  have hP11 : posRows t11 := posRows_map _ t10 (fun nc => by split <;> simp) hP10
  have hconvlen : ∀ nc : String × Col,
      (((nc.1, if (toNumericCol nc.2).dtype = Dtype.object then
        toDatetimeCol (toNumericCol nc.2) else toNumericCol nc.2) : String × Col).2).cells.length =
      ((nc.2)).cells.length := by
    intro nc
    split
    · show (toDatetimeCol (toNumericCol nc.2)).cells.length = ((nc.2)).cells.length
      rw [toDatetimeCol_len, toNumericCol_len]
    · show (toNumericCol nc.2).cells.length = ((nc.2)).cells.length
      rw [toNumericCol_len]
  have hU12 : colsUniform t12 := colsUniform_map _ t11 hconvlen hU11
  have hP12 : posRows t12 := posRows_map _ t11 hconvlen hP11
  have hU13 : colsUniform (handle_missing_values t12) :=
    colsUniform_map _ t12 (fun nc => by simp) hU12
  have hP13 : posRows (handle_missing_values t12) :=
    posRows_map _ t12 (fun nc => by simp) hP12
  have hA5 : ∀ nc ∈ handle_missing_values t12, ∀ v ∈ (nc.2).cells, ¬ v = Val.na :=
    handle_no_na t12
  have hS5 : objStrip t5 := objStrip_strip t4
  have hS6 : objStrip t6 := objStrip_mapColumn "gender" genderMap (by decide) t5 hS5
  have hS7 : objStrip t7 := objStrip_mapColumn "education" educationMap (by decide) t6 hS6
  have hS8 : objStrip t8 := objStrip_mapColumn "state" stateMap (by decide) t7 hS7
  have hS9 : objStrip t9 := objStrip_cap t8 t9 hcap hS8
  have hS10 : objStrip t10 := objStrip_mapColumn "policy_type" policyMap (by decide) t9 hS9
  have hS11 : objStrip t11 := objStrip_clv t10 hS10
  have hS12 : objStrip t12 := objStrip_convert t11 hS11
  have hS13 : objStrip (handle_missing_values t12) := objStrip_handle t12 hS12
  have hg6 : colCellsP "gender" (fun v => applyMap genderMap v = v) t6 :=
    colCellsP_mapColumnG _ _ _ _ t5 (fun _ w => applyMap_idem genderMap (by decide) w)
      (fun hne => absurd rfl hne)
  have hg7 : colCellsP "gender" (fun v => applyMap genderMap v = v) t7 :=
    colCellsP_mapColumnG _ _ _ _ t6 (fun heq => absurd heq (by decide)) (fun _ => hg6)
  have hg8 : colCellsP "gender" (fun v => applyMap genderMap v = v) t8 :=
    colCellsP_mapColumnG _ _ _ _ t7 (fun heq => absurd heq (by decide)) (fun _ => hg7)
  have hg9 : colCellsP "gender" (fun v => applyMap genderMap v = v) t9 :=
    colCellsP_cap _ _ t8 t9 hcap
      (fun w v _ hc => applyMap_shape_num genderMap v (capCell_ok_shape w v hc)) hg8
  have hg10 : colCellsP "gender" (fun v => applyMap genderMap v = v) t10 :=
    colCellsP_mapColumnG _ _ _ _ t9 (fun heq => absurd heq (by decide)) (fun _ => hg9)
  have hg11 : colCellsP "gender" (fun v => applyMap genderMap v = v) t11 :=
    colCellsP_clvG _ _ t10 (fun heq => absurd heq (by decide)) (fun _ => hg10)
  have hg12 : colCellsP "gender" (fun v => applyMap genderMap v = v) t12 :=
    colCellsP_convert _ _ t11
      (fun w v _ hs => applyMap_shape_num genderMap v (toNumericCell_shape w v hs))
      (fun w v _ hs => applyMap_shape_dt genderMap v (toDatetimeCell_shape w v hs))
      (fun n _ => rfl) (fun _ => rfl) hg11
  have hg13 : colCellsP "gender" (fun v => applyMap genderMap v = v)
      (handle_missing_values t12) :=
    colCellsP_handle _ _ t12 rfl (by decide) hg12
  have he7 : colCellsP "education" (fun v => applyMap educationMap v = v) t7 :=
    colCellsP_mapColumnG _ _ _ _ t6 (fun _ w => applyMap_idem educationMap (by decide) w)
      (fun hne => absurd rfl hne)
  have he8 : colCellsP "education" (fun v => applyMap educationMap v = v) t8 :=
    colCellsP_mapColumnG _ _ _ _ t7 (fun heq => absurd heq (by decide)) (fun _ => he7)
  have he9 : colCellsP "education" (fun v => applyMap educationMap v = v) t9 :=
    colCellsP_cap _ _ t8 t9 hcap
      (fun w v _ hc => applyMap_shape_num educationMap v (capCell_ok_shape w v hc)) he8
  have he10 : colCellsP "education" (fun v => applyMap educationMap v = v) t10 :=
    colCellsP_mapColumnG _ _ _ _ t9 (fun heq => absurd heq (by decide)) (fun _ => he9)
  have he11 : colCellsP "education" (fun v => applyMap educationMap v = v) t11 :=
    colCellsP_clvG _ _ t10 (fun heq => absurd heq (by decide)) (fun _ => he10)
  have he12 : colCellsP "education" (fun v => applyMap educationMap v = v) t12 :=
    colCellsP_convert _ _ t11
      (fun w v _ hs => applyMap_shape_num educationMap v (toNumericCell_shape w v hs))
      (fun w v _ hs => applyMap_shape_dt educationMap v (toDatetimeCell_shape w v hs))
      (fun n _ => rfl) (fun _ => rfl) he11
  have he13 : colCellsP "education" (fun v => applyMap educationMap v = v)
      (handle_missing_values t12) :=
    colCellsP_handle _ _ t12 rfl (by decide) he12
  have hs8 : colCellsP "state" (fun v => applyMap stateMap v = v) t8 :=
    colCellsP_mapColumnG _ _ _ _ t7 (fun _ w => applyMap_idem stateMap (by decide) w)
      (fun hne => absurd rfl hne)
  have hs9 : colCellsP "state" (fun v => applyMap stateMap v = v) t9 :=
    colCellsP_cap _ _ t8 t9 hcap
      (fun w v _ hc => applyMap_shape_num stateMap v (capCell_ok_shape w v hc)) hs8
  have hs10 : colCellsP "state" (fun v => applyMap stateMap v = v) t10 :=
    colCellsP_mapColumnG _ _ _ _ t9 (fun heq => absurd heq (by decide)) (fun _ => hs9)
  have hs11 : colCellsP "state" (fun v => applyMap stateMap v = v) t11 :=
    colCellsP_clvG _ _ t10 (fun heq => absurd heq (by decide)) (fun _ => hs10)
  have hs12 : colCellsP "state" (fun v => applyMap stateMap v = v) t12 :=
    colCellsP_convert _ _ t11
      (fun w v _ hs => applyMap_shape_num stateMap v (toNumericCell_shape w v hs))
      (fun w v _ hs => applyMap_shape_dt stateMap v (toDatetimeCell_shape w v hs))
      (fun n _ => rfl) (fun _ => rfl) hs11
  have hs13 : colCellsP "state" (fun v => applyMap stateMap v = v)
      (handle_missing_values t12) :=
    colCellsP_handle _ _ t12 rfl (by decide) hs12
  have hp10 : colCellsP "policy_type" (fun v => applyMap policyMap v = v) t10 :=
    colCellsP_mapColumnG _ _ _ _ t9 (fun _ w => applyMap_idem policyMap (by decide) w)
      (fun hne => absurd rfl hne)
  have hp11 : colCellsP "policy_type" (fun v => applyMap policyMap v = v) t11 :=
    colCellsP_clvG _ _ t10 (fun heq => absurd heq (by decide)) (fun _ => hp10)
  have hp12 : colCellsP "policy_type" (fun v => applyMap policyMap v = v) t12 :=
    colCellsP_convert _ _ t11
      (fun w v _ hs => applyMap_shape_num policyMap v (toNumericCell_shape w v hs))
      (fun w v _ hs => applyMap_shape_dt policyMap v (toDatetimeCell_shape w v hs))
      (fun n _ => rfl) (fun _ => rfl) hp11
  have hp13 : colCellsP "policy_type" (fun v => applyMap policyMap v = v)
      (handle_missing_values t12) :=
    colCellsP_handle _ _ t12 rfl (by decide) hp12
  have hk9 : colCellsP "monthly_premium_auto" (fun v => capCell v = Except.ok v) t9 :=
    capFixed_cap t8 t9 hcap
  have hk10 : colCellsP "monthly_premium_auto" (fun v => capCell v = Except.ok v) t10 :=
    colCellsP_mapColumnG _ _ _ _ t9 (fun heq => absurd heq (by decide)) (fun _ => hk9)
  have hk11 : colCellsP "monthly_premium_auto" (fun v => capCell v = Except.ok v) t11 :=
    colCellsP_clvG _ _ t10 (fun heq => absurd heq (by decide)) (fun _ => hk10)
  obtain ⟨hk12, hkd12⟩ := capInv_convert t11 hk11
  have hk13 : colCellsP "monthly_premium_auto" (fun v => capCell v = Except.ok v)
      (handle_missing_values t12) :=
    colCellsP_handle_numeric _ _ t12 hkd12 (by rw [capCell, if_neg (by norm_num)]) hk12
  have hc11 : colCellsP "customer_lifetime_value" (fun v => clvCell v = v) t11 :=
    colCellsP_clvG _ _ t10 (fun _ w => clvCell_idem w) (fun hne => absurd rfl hne)
  have hd11 : colNumeric "customer_lifetime_value" t11 := colNumeric_clvStage t10
  have hc12 : colCellsP "customer_lifetime_value" (fun v => clvCell v = v) t12 :=
    colCellsP_convert_numeric _ _ t11 hd11 hc11
  have hd12 : colNumeric "customer_lifetime_value" t12 := colNumeric_convert _ t11 hd11
  have hc13 : colCellsP "customer_lifetime_value" (fun v => clvCell v = v)
      (handle_missing_values t12) :=
    colCellsP_handle_numeric _ _ t12 hd12 (clvCell_num_of_dvd 0 0 (by norm_num)) hc12
  have hd13 : colNumeric "customer_lifetime_value" (handle_missing_values t12) :=
    colNumeric_handle _ t12 hd12
  have hconv : ∀ nc ∈ handle_missing_values t12, ¬ (nc.2).dtype = Dtype.datetime →
      toNumericCol nc.2 = nc.2 ∧ ((nc.2).dtype = Dtype.object → toDatetimeCol nc.2 = nc.2) :=
    convert_handle_fix t11
  exact ⟨hN13, hU13, hP13, hA5, hS13, hg13, he13, hs13, hp13, hk13, hd13, hc13, hconv⟩

/-- C6: the claim says `clean_data` is idempotent on every input
(`clean_data (clean_data T) = clean_data T`).  It is not: deduplication runs
before text normalisation and the categorical maps, so a first run can leave
duplicate rows that only the second run removes, and a column converted to the
datetime dtype is re-coerced to its integer epoch values on the second run.
Amended statement, proved here: the pipeline is idempotent on every one of its
own outputs whose rows are pairwise distinct and which carries no
datetime-dtype column — if `clean_data T = Except.ok U`, the rows of `U` are
`Nodup`, and no column of `U` is datetime-typed, then
`clean_data U = Except.ok U`. -/
theorem claim_C6_idempotent (T U : Table) (h : clean_data T = Except.ok U)
    (hnodup : rowsNodup U) (hdt : noTemporalCol U) : clean_data U = Except.ok U := by
  obtain ⟨hN, hU, hP, hA, hS, hg, he, hs, hp, hk, hd, hc, hconv⟩ := clean_data_inv T U h
  have e1 : clean_column_names U = U := clean_column_names_id U (fun nc hnc => (hN nc hnc).1)
  have e2 : rename_columns U = U := rename_columns_id U (fun nc hnc => (hN nc hnc).2)
  have e3 : remove_empty_rows_columns U = U := remove_empty_id U hU hP hA
  have e4 : remove_duplicates U = U := remove_duplicates_id U hU hnodup
  have e5 : strip_text_columns U = U := strip_text_columns_id U hS
  have e6 : clean_gender U = U := mapColumn_id "gender" (applyMap genderMap) U hg
  have e7 : clean_education U = U := mapColumn_id "education" (applyMap educationMap) U he
  have e8 : clean_state_names U = U := mapColumn_id "state" (applyMap stateMap) U hs
  have e9 : cap_monthly_premium_auto U = Except.ok U := cap_ok_id U hk
  have e10 : clean_policy_type U = U := mapColumn_id "policy_type" (applyMap policyMap) U hp
  have e11 : clean_customer_lifetime_value U = U :=
    clv_id U (fun nc hnc hn => ⟨hd nc hnc hn, hc nc hnc hn⟩)
  have e12 : convert_data_types U = U :=
    convert_id U (fun nc hnc => hconv nc hnc (hdt nc hnc))
  have e13 : handle_missing_values U = U := handle_missing_id U hA
  rw [clean_data, e1, e2, e3, e4, e5, e6, e7, e8, e9]
  simp only [except_bind_ok]
  rw [e10, e11, e12, e13]
  rfl

/-- Counterexample to the claimed unconditional idempotence of `clean_data`:
on a gender column holding "male" and "m", the first run maps both cells to
"m" — after deduplication has already kept both rows — so the first run's
output has two identical rows and the second run, whose deduplication now sees
them, returns a one-row table instead of reproducing its input. -/
theorem claim_C6_idempotent_cex :
    clean_data [("gender", Col.mk Dtype.object [Val.str "male", Val.str "m"])] =
      Except.ok [("gender", Col.mk Dtype.object [Val.str "m", Val.str "m"])] ∧
    clean_data [("gender", Col.mk Dtype.object [Val.str "m", Val.str "m"])] =
      Except.ok [("gender", Col.mk Dtype.object [Val.str "m"])] := by
  exact ⟨by rfl, by rfl⟩

/-- Witness instantiating the amended C6 theorem: a one-row gender table is
cleaned to a table with distinct rows and no datetime column, on which a second
run reproduces the output. -/
theorem claim_C6_idempotent_witness :
    clean_data [("gender", Col.mk Dtype.object [Val.str "male"])] =
      Except.ok [("gender", Col.mk Dtype.object [Val.str "m"])] ∧
    clean_data [("gender", Col.mk Dtype.object [Val.str "m"])] =
      Except.ok [("gender", Col.mk Dtype.object [Val.str "m"])] :=
  ⟨by rfl, claim_C6_idempotent [("gender", Col.mk Dtype.object [Val.str "male"])]
    [("gender", Col.mk Dtype.object [Val.str "m"])] (by rfl)
    (by show (rowsOf [("gender", Col.mk Dtype.object [Val.str "m"])]).Nodup; decide)
    (by show ∀ nc ∈ [("gender", Col.mk Dtype.object [Val.str "m"])],
      ¬ (nc.2).dtype = Dtype.datetime; decide)⟩


end Cleaning
